import Mathlib

/-!
# Verification of the `SystemOne` core of the pairinteraction repository

This file gives a shallow embedding, in Lean 4, of the one-particle system
builder `SystemOne.cpp` of the pairinteraction repository, together with
theorems settling the specification claims about it.

Modelling conventions:

* C++ `double` arithmetic is idealized as exact arithmetic.  All numbers
  appearing in `SystemOne.cpp` live in the ring `ℚ[√2, √3, i]` (the scalar
  type `scalar_t` may be `double` or `std::complex<double>`; we embed the
  complex configuration, which is the one in which every code path is
  meaningful).  The computable ring `KC` below realizes `ℚ[√2, √3, i]`
  componentwise; `Q4` is its real subring `ℚ[√2, √3]`.
* Half-integer quantum numbers (`j`, `m`, spin `s`, conserved momenta) are
  represented by twice their value, as integers (`j2`, `m2`, ...).
* `std::map` / `std::unordered_map` members are represented by association
  lists (`List (κ × α)`); `operator[]` reads are modelled by lookup with the
  default value `0`, matching the value-initialization C++ performs.
* Sparse Eigen matrices are represented extensionally as total functions
  `Nat → Nat → KC`; `setFromTriplets` sums the triplets with equal
  coordinates, exactly as Eigen does.
* Exceptions (`throw std::runtime_error`) are modelled with `Except String`
  (or a result paired with `Option String` where the partially mutated
  object must be observable, as C++ exception semantics leaves the object
  in its partially mutated state).
-/

-- Rational arithmetic is `@[irreducible]` by default; witnesses and
-- counterexamples below evaluate concrete runs of the embedded code by
-- `decide`, which needs these operations to reduce.
attribute [local semireducible] Rat.add Rat.mul Rat.sub Rat.inv Rat.ofScientific

/-! ## The scalar ring ℚ[√2, √3, i] -/

/-- An element `a + b·√2 + c·√3 + d·√6` of the real ring `ℚ[√2, √3]`. -/
structure Q4 where
  a : ℚ
  b : ℚ
  c : ℚ
  d : ℚ
deriving DecidableEq, Repr

namespace Q4

def ofRat (q : ℚ) : Q4 := ⟨q, 0, 0, 0⟩

instance : Zero Q4 := ⟨ofRat 0⟩
instance : One Q4 := ⟨ofRat 1⟩

def add (x y : Q4) : Q4 := ⟨x.a + y.a, x.b + y.b, x.c + y.c, x.d + y.d⟩
def neg (x : Q4) : Q4 := ⟨-x.a, -x.b, -x.c, -x.d⟩
def sub (x y : Q4) : Q4 := add x (neg y)

/-- Multiplication in `ℚ[√2,√3]`, using `√2·√2 = 2`, `√3·√3 = 3`,
`√2·√3 = √6`, `√6·√6 = 6`, `√2·√6 = 2√3`, `√3·√6 = 3√2`. -/
def mul (x y : Q4) : Q4 :=
  ⟨x.a * y.a + 2 * x.b * y.b + 3 * x.c * y.c + 6 * x.d * y.d,
   x.a * y.b + x.b * y.a + 3 * (x.c * y.d + x.d * y.c),
   x.a * y.c + x.c * y.a + 2 * (x.b * y.d + x.d * y.b),
   x.a * y.d + x.d * y.a + x.b * y.c + x.c * y.b⟩

instance : Add Q4 := ⟨add⟩
instance : Neg Q4 := ⟨neg⟩
instance : Sub Q4 := ⟨sub⟩
instance : Mul Q4 := ⟨mul⟩

/-- Sign of the real number `a + b·√2` (`1`, `0` or `-1`).
For rationals `a`, `b` not both zero the value `a + b√2` is nonzero, and
its sign is decided exactly by comparing `a²` with `2b²`. -/
def sgn2 (a b : ℚ) : Int :=
  if a = 0 ∧ b = 0 then 0
  else if 0 ≤ a ∧ 0 ≤ b then 1
  else if a ≤ 0 ∧ b ≤ 0 then -1
  else if 0 < a then (if 2 * b ^ 2 < a ^ 2 then 1 else -1)
  else (if 2 * b ^ 2 < a ^ 2 then -1 else 1)

/-- Sign of the real number `x.a + x.b√2 + x.c√3 + x.d√6
= (x.a + x.b√2) + √3(x.c + x.d√2)`, decided exactly. -/
def sgn (x : Q4) : Int :=
  let sx := sgn2 x.a x.b
  let sy := sgn2 x.c x.d
  if sx = 0 then sy
  else if sy = 0 then sx
  else if sx = sy then sx
  else
    -- X and √3·Y have opposite signs; compare X² with 3Y² (both in ℚ[√2]).
    let da : ℚ := x.a ^ 2 + 2 * x.b ^ 2 - 3 * (x.c ^ 2 + 2 * x.d ^ 2)
    let db : ℚ := 2 * x.a * x.b - 6 * x.c * x.d
    if sx = 1 then sgn2 da db else - sgn2 da db

end Q4

/-- An element `re + i·im` of the ring `ℚ[√2, √3, i]`; the exact-arithmetic
idealization of the C++ scalar type (`double` values embed via `re`). -/
structure KC where
  re : Q4
  im : Q4
deriving DecidableEq, Repr

namespace KC

def ofQ4 (x : Q4) : KC := ⟨x, 0⟩
def ofRat (q : ℚ) : KC := ⟨Q4.ofRat q, 0⟩

instance : Zero KC := ⟨ofRat 0⟩
instance : One KC := ⟨ofRat 1⟩

def add (x y : KC) : KC := ⟨x.re + y.re, x.im + y.im⟩
def neg (x : KC) : KC := ⟨-x.re, -x.im⟩
def sub (x y : KC) : KC := add x (neg y)
def mul (x y : KC) : KC :=
  ⟨x.re * y.re - x.im * y.im, x.re * y.im + x.im * y.re⟩

instance : Add KC := ⟨add⟩
instance : Neg KC := ⟨neg⟩
instance : Sub KC := ⟨sub⟩
instance : Mul KC := ⟨mul⟩

/-- Complex conjugation. -/
def conj (x : KC) : KC := ⟨x.re, -x.im⟩

/-- The imaginary unit `utils::imaginary_unit<scalar_t>()`. -/
def imagUnit : KC := ⟨0, 1⟩

/-- `1/√2 = √2/2`. -/
def sqrt2inv : KC := ⟨⟨0, 1/2, 0, 0⟩, 0⟩

/-- `√3` (the `std::sqrt(3)` factor of `SystemOne::addInteraction`). -/
def sqrt3 : KC := ⟨⟨0, 0, 1, 0⟩, 0⟩

/-- `√1.5 = √6/2` (the `std::sqrt(1.5)` factor of `SystemOne::addInteraction`). -/
def sqrt15 : KC := ⟨⟨0, 0, 0, 1/2⟩, 0⟩

/-- The squared absolute value `|z|²`, an element of `ℚ[√2,√3]`. -/
def normSq (z : KC) : Q4 := z.re * z.re + z.im * z.im

/-- `std::abs(z) > t` for a nonnegative rational threshold `t`, decided
exactly via `|z|² > t²`. -/
def absGt (z : KC) (t : ℚ) : Bool := Q4.sgn (Q4.sub (normSq z) (Q4.ofRat (t * t))) = 1

/-- `std::pow(-1, k)` for an integer exponent `k`. -/
def phasePow (k : Int) : KC := if k % 2 = 0 then 1 else -1

end KC

/-! ## Matrices and sparse triplets -/

/-- Extensional view of a sparse Eigen matrix: entry at (row, col). -/
abbrev Mat : Type := Nat → Nat → KC

/-- A sparse-matrix triplet `(row, col, value)` (`eigen_triplet_t`). -/
abbrev Trip : Type := Nat × Nat × KC

/-- Sum of a list of scalars. -/
def sumKC (l : List KC) : KC := l.foldr KC.add 0

/-- `Eigen::SparseMatrix::setFromTriplets`: the matrix whose `(r, c)` entry
is the sum of the values of all triplets with coordinates `(r, c)`. -/
def ofTriplets (ts : List Trip) : Mat := fun r c =>
  sumKC ((ts.filter (fun t => t.1 = r ∧ t.2.1 = c)).map (fun t => t.2.2))

/-- Matrix adjoint (conjugate transpose). -/
def adjointM (A : Mat) : Mat := fun r c => KC.conj (A c r)

/-- `selfadjointView<Eigen::Lower>`: read the lower triangle (row ≥ col) as
stored and mirror it conjugated to the upper triangle. -/
def selfadjointLowerM (A : Mat) : Mat := fun r c =>
  if c ≤ r then A r c else KC.conj (A c r)

/-- Matrix product with explicit inner dimension `n`. -/
def mulM (n : Nat) (A B : Mat) : Mat := fun r c =>
  sumKC (((List.range n).map (fun k => KC.mul (A r k) (B k c))))

/-- Pointwise matrix sum. -/
def addM (A B : Mat) : Mat := fun r c => A r c + B r c

/-- Pointwise matrix difference. -/
def subM (A B : Mat) : Mat := fun r c => A r c - B r c

/-- Matrix times scalar (`matrix * coefficient` in Eigen). -/
def smulM (A : Mat) (z : KC) : Mat := fun r c => A r c * z

/-- The zero matrix (a default-constructed sparse matrix). -/
def zeroM : Mat := fun _ _ => 0

/-- `basisvectors.adjoint() * A * basisvectors` with `n` canonical
coordinates (the transform of a canonical-basis operator into the working
basis). -/
def basisTransform (n : Nat) (B A : Mat) : Mat :=
  mulM n (mulM n (adjointM B) A) B

/-! ## Association-list maps (`std::map` / `std::unordered_map` members) -/

/-- Lookup in an association list (`map::find`). -/
def alist.find? {κ : Type} [DecidableEq κ] {α : Type} (l : List (κ × α)) (k : κ) :
    Option α := (List.find? (fun p => p.1 = k) l).map (fun p => p.2)

/-- `map::operator[]` as a read: lookup with default `0`. -/
def alist.get0 {κ : Type} [DecidableEq κ] (l : List (κ × KC)) (k : κ) : KC :=
  (alist.find? l k).getD 0

/-- `map::operator[] = v`: replace the value at `k`, or append `(k, v)`. -/
def alist.set {κ : Type} [DecidableEq κ] {α : Type} :
    List (κ × α) → κ → α → List (κ × α)
  | [], k, v => [(k, v)]
  | p :: ps, k, v => if p.1 = k then (k, v) :: ps else p :: alist.set ps k v

/-! ## One-particle states and external collaborators -/

/-- Conserved parity under reflection (`parity_t`): `NA`, `EVEN` or `ODD`. -/
inductive Parity where
  | NA
  | EVEN
  | ODD
deriving DecidableEq, Repr

/-- Modelled from the spec: the one-particle quantum state (`StateOne`,
whose header is not part of the sources): species tag, quantum numbers
`n`, `l`, half-integers `j` and `m` stored as twice their value (`j2`,
`m2`), and the "artificial" flag for user-injected placeholder states.
Two states with identical fields are identical. -/
structure StateOne where
  species : String
  n : Int
  l : Int
  j2 : Int
  m2 : Int
  artificial : Bool
deriving DecidableEq, Repr

namespace StateOne

/-- Modelled from the spec: the reflection-partner mapping `m → −m`
(`StateOne::getReflected`); the phase rule is applied by the caller. -/
def getReflected (s : StateOne) : StateOne := { s with m2 := -s.m2 }

/-- The integer exponent `l + m − j` of `std::pow(-1, l + m - j)` in
`SystemOne::addSymmetrizedBasisvectors` (an integer whenever `m` and `j`
are half-integers of the same parity class, which the enumeration
guarantees). -/
def phaseExp (s : StateOne) : Int := s.l + (s.m2 - s.j2) / 2

end StateOne

/-- Modelled from the spec: the distinguished "arbitrary momentum" sentinel
`ARB` from the missing `dtypes.hpp`, in doubled-momentum representation.
Only identity comparisons are performed on it, so its numeric value is
immaterial. -/
def ARBm2 : Int := 52202

/-- Modelled from the spec: the external matrix-element source
(`MatrixElementCache`) and the selection-rule predicates
(`selectionRulesMultipoleNew`, `selectionRulesMomentumNew`), which are not
part of the sources.  The spec treats all of them as pure, deterministic
functions; the two physical constants stand for the literal factors
`1/(8·electron_rest_mass)` and `-coulombs_constant·elementary_charge`
from the missing `dtypes.hpp`. -/
structure ExtCache where
  selectionRulesMultipoleNew : StateOne → StateOne → Int → Int → Bool
  selectionRulesMultipoleOrder : StateOne → StateOne → Int → Bool
  selectionRulesMomentumNew : StateOne → StateOne → Int → Bool
  getElectricDipole : StateOne → StateOne → KC
  getMagneticDipole : StateOne → StateOne → KC
  getDiamagnetism : StateOne → StateOne → Int → KC
  getElectricMultipole : StateOne → StateOne → Int → KC
  getEnergy : StateOne → ℚ
  invEightElectronRestMass : ℚ
  coulombFactor : ℚ

/-! ## Basis construction (`SystemOne::initializeBasis`) -/

/-- The restriction / symmetry configuration consumed by
`SystemOne::initializeBasis` (members inherited from `SystemBase`;
empty lists mean "unrestricted", `none` bounds model the
`std::numeric_limits` sentinels `lowest()` / `max()`). -/
structure BasisParams where
  species : String
  range_n : List Int
  range_l : List Int
  range_j2 : List Int
  range_m2 : List Int
  energy_min : Option ℚ
  energy_max : Option ℚ
  states_to_add : List StateOne
  sym_reflection : Parity
  sym_rotation : List Int

/-- Twice the spin deduced from the species name: `s = ((back - '0') - 1)/2`
if the last character is a digit, else `s = 0.5`. -/
def speciesS2 (species : String) : Int :=
  match species.toList.getLast? with
  | some ch => if ch.isDigit then (ch.toNat : Int) - 48 - 1 else 1
  | none => 1

/-- `SystemBase::range(set, lo, hi)` for integer-valued quantum numbers:
the values `lo, lo+1, ..., hi`. -/
def rangeInt (lo hi : Int) : List Int :=
  (List.range (hi - lo + 1).toNat).map (fun k => lo + (k : Int))

/-- `SystemBase::range(set, lo, hi)` for half-integer quantum numbers in
doubled representation: the values `lo, lo+2, ..., hi`. -/
def range2 (lo hi : Int) : List Int :=
  (List.range ((hi - lo) / 2 + 1).toNat).map (fun k => lo + 2 * (k : Int))

/-- Modelled from the spec: `SystemBase::checkIsEnergyValid` — a state is
kept iff its energy lies in the energy window (unrestricted sides pass). -/
def checkIsEnergyValid (p : BasisParams) (e : ℚ) : Bool :=
  (match p.energy_min with | none => true | some a => decide (a ≤ e)) &&
  (match p.energy_max with | none => true | some b => decide (e ≤ b))

/-- The mutable build state of `initializeBasis`: the registered state list
(`states`, whose position is the state's index), the basis-vector column
counter `idx`, and the two triplet buffers. -/
structure BuildSt where
  states : List StateOne
  idx : Nat
  bvTriplets : List Trip
  hTriplets : List (Nat × Nat × ℚ)
deriving DecidableEq, Repr

deriving instance DecidableEq for Except

/-- `SystemOne::addBasisvectors`: look the state up in the registry (its
row is its position), registering it at the end if absent, and append the
triplet `(row, idx, value)`. -/
def addBasisvectors (state : StateOne) (idx : Nat) (value : KC) (st : BuildSt) : BuildSt :=
  match st.states.findIdx? (fun s => s = state) with
  | some row => { st with bvTriplets := st.bvTriplets ++ [(row, idx, value)] }
  | none =>
      { st with
        states := st.states ++ [state],
        bvTriplets := st.bvTriplets ++ [(st.states.length, idx, value)] }

/-- `SystemOne::addSymmetrizedBasisvectors`: skip the negative-`m` branch
under reflection symmetry; otherwise store the unperturbed energy, register
one basis-vector entry with value `1` (or `1/√2` if symmetrized), add the
reflected partner entry with the phased value, and advance the column
counter. -/
def addSymmetrizedBasisvectors (state : StateOne) (energy : ℚ) (symLocal : Parity)
    (st : BuildSt) : BuildSt :=
  if symLocal ≠ Parity.NA ∧ state.m2 ≠ 0 ∧ state.m2 < 0 then st
  else
    let st1 := { st with hTriplets := st.hTriplets ++ [(st.idx, st.idx, energy)] }
    let doSym := symLocal ≠ Parity.NA ∧ state.m2 ≠ 0
    let value : KC := if doSym then KC.sqrt2inv else 1
    let st2 := addBasisvectors state st1.idx value st1
    let st3 :=
      if doSym then
        let value2 := value * KC.phasePow state.phaseExp * KC.imagUnit *
          (if symLocal = Parity.EVEN then 1 else -1)
        addBasisvectors state.getReflected st2.idx value2 st2
      else st2
    { st3 with idx := st3.idx + 1 }

/-- Innermost (`m`) loop body of the quantum-number enumeration. -/
def mStep (p : BasisParams) (n l j2 : Int) (energy : ℚ) (allowed : List Int)
    (st : BuildSt) (m2 : Int) : Except String BuildSt :=
  if (m2.natAbs : Int) > j2 then .ok st
  else
    let state : StateOne := ⟨p.species, n, l, j2, m2, false⟩
    if p.sym_reflection ≠ Parity.NA ∧ state.m2 ≠ 0 ∧ ¬ (-state.m2 ∈ allowed) then
      .error "The momentum required by symmetries cannot be found."
    else
      .ok (addSymmetrizedBasisvectors state energy p.sym_reflection st)

/-- `j` loop body: guard `fabs(j-l) > s || j < 0`, energy filter, adaptation
and rotation-symmetry intersection of the `m` range, inner loop. -/
def jStep (cache : ExtCache) (p : BasisParams) (s2 n l : Int)
    (st : BuildSt) (j2 : Int) : Except String BuildSt :=
  if ((j2 - 2 * l).natAbs : Int) > s2 ∨ j2 < 0 then .ok st
  else
    let energy := cache.getEnergy ⟨p.species, n, l, j2, s2, false⟩
    if ¬ checkIsEnergyValid p energy then .ok st
    else
      let range_adapted_m := if p.range_m2.isEmpty then range2 (-j2) j2 else p.range_m2
      let range_allowed_m :=
        if ARBm2 ∈ p.sym_rotation then range_adapted_m
        else range_adapted_m.filter (fun v => v ∈ p.sym_rotation)
      range_allowed_m.foldlM (mStep p n l j2 energy range_allowed_m) st

/-- `l` loop body: guard `l > n-1 || l < 0`, adaptation of the `j` range. -/
def lStep (cache : ExtCache) (p : BasisParams) (s2 n : Int)
    (st : BuildSt) (l : Int) : Except String BuildSt :=
  if l > n - 1 ∨ l < 0 then .ok st
  else
    let range_adapted_j :=
      if p.range_j2.isEmpty then range2 ((2 * l - s2).natAbs : Int) (2 * l + s2)
      else p.range_j2
    range_adapted_j.foldlM (jStep cache p s2 n l) st

/-- `n` loop body: adaptation of the `l` range. -/
def nStep (cache : ExtCache) (p : BasisParams) (s2 : Int)
    (st : BuildSt) (n : Int) : Except String BuildSt :=
  let range_adapted_l := if p.range_l.isEmpty then rangeInt 0 (n - 1) else p.range_l
  range_adapted_l.foldlM (lStep cache p s2 n) st

/-- Body of the second user-defined-state loop: energy, local symmetry
downgrade for artificial states (the C++ emits a warning on `stderr`,
which the model drops), rotation-symmetry filter, reflection-partner
availability check, registration. -/
def userStep (cache : ExtCache) (p : BasisParams) (st : BuildSt) (state : StateOne) :
    Except String BuildSt :=
  let energy : ℚ := if state.artificial then 0 else cache.getEnergy state
  let symRefl := if state.artificial then Parity.NA else p.sym_reflection
  let symRot := if state.artificial then [ARBm2] else p.sym_rotation
  if ¬ (ARBm2 ∈ symRot) ∧ ¬ (state.m2 ∈ symRot) then .ok st
  else if symRefl ≠ Parity.NA ∧ state.m2 ≠ 0 ∧ ¬ (state.getReflected ∈ p.states_to_add) then
    .error "The state required by symmetries cannot be found."
  else .ok (addSymmetrizedBasisvectors state energy symRefl st)

/-- The first user-defined-state loop of `initializeBasis`: every
user-added state must not already be registered and, unless artificial,
must match the system's species. -/
def userPrecheck (p : BasisParams) (st : BuildSt) : Except String Unit :=
  p.states_to_add.foldlM (fun (_ : Unit) state =>
    if state ∈ st.states then
      Except.error "The state is already contained in the list of states."
    else if ¬ state.artificial ∧ state.species ≠ p.species then
      Except.error "The state is of the wrong species."
    else Except.ok ()) ()

/-- `SystemOne::initializeBasis`.  Error messages are modelled by fixed
strings (the C++ interpolates the offending state into them). -/
def initializeBasis (cache : ExtCache) (p : BasisParams) : Except String BuildSt :=
  if p.range_n.isEmpty ∧ (p.energy_min.isNone ∨ p.energy_max.isNone) then
    .error "The number of basis elements is infinite. The basis has to be restricted."
  else
    let s2 := speciesS2 p.species
    if p.range_n.isEmpty then
      .error "The calculation of range_n via energy restrictions is not yet implemented."
    else
      match p.range_n.foldlM (nStep cache p s2) ⟨[], 0, [], []⟩ with
      | .error e => .error e
      | .ok st =>
          match userPrecheck p st with
          | .error e => .error e
          | .ok _ => p.states_to_add.foldlM (userStep cache p) st

/-- The basis-change matrix built from the finished triplet buffer
(`basisvectors.setFromTriplets`). -/
def basisvectorsOf (st : BuildSt) : Mat := ofTriplets st.bvTriplets

/-! ## The one-particle system object (`SystemOne`) -/

/-- The `SystemOne` object: its own members (fields, spherical components,
diamagnetic coefficients, charge/order/distance, symmetries) and, modelled
from the spec, the members inherited from the missing `SystemBase`
(state registry, basis-change matrix, Hamiltonian, the four interaction
operator caches, and the assembler dirty flags). `distance = none` models
the `std::numeric_limits<double>::max()` sentinel. -/
structure SysOne where
  species : String
  efield : ℚ × ℚ × ℚ
  bfield : ℚ × ℚ × ℚ
  efield_spherical : List (Int × KC)
  bfield_spherical : List (Int × KC)
  diamagnetism : Bool
  diamagnetism_terms : List ((Int × Int) × KC)
  charge : Int
  ordermax : Nat
  distance : Option ℚ
  sym_reflection : Parity
  sym_rotation : List Int
  states : List StateOne
  basisvectors : Mat
  hamiltonian : Mat
  interaction_efield : List (Int × Mat)
  interaction_bfield : List (Int × Mat)
  interaction_diamagnetism : List ((Int × Int) × Mat)
  interaction_multipole : List (Int × Mat)
  parametersDirty : Bool
  symmetryDirty : Bool

/-- The `SystemOne(species, cache)` constructor: zero fields, diamagnetism
enabled, no charge, order 0, infinite distance, no reflection parity,
rotation momenta at the `ARB` sentinel, and (from `SystemBase`) empty
registry, caches and matrices. -/
def mkSystemOne (species : String) : SysOne where
  species := species
  efield := (0, 0, 0)
  bfield := (0, 0, 0)
  efield_spherical := []
  bfield_spherical := []
  diamagnetism := true
  diamagnetism_terms := []
  charge := 0
  ordermax := 0
  distance := none
  sym_reflection := Parity.NA
  sym_rotation := [ARBm2]
  states := []
  basisvectors := zeroM
  hamiltonian := zeroM
  interaction_efield := []
  interaction_bfield := []
  interaction_diamagnetism := []
  interaction_multipole := []
  parametersDirty := false
  symmetryDirty := false

/-- Modelled from the spec: `SystemBase::onParameterChange` marks the
assembler parameters-dirty (a field/charge/geometry mutator ran). -/
def onParameterChange (s : SysOne) : SysOne := { s with parametersDirty := true }

/-- Modelled from the spec: `SystemBase::onSymmetryChange` marks the
assembler symmetry-dirty (a symmetry mutator ran). -/
def onSymmetryChange (s : SysOne) : SysOne := { s with symmetryDirty := true }

/-- The complex-scalar overload of `SystemOne::changeToSphericalbasis`:
`field_spherical[1] = (-x/√2, -y/√2)`, `field_spherical[-1] = (x/√2, -y/√2)`,
`field_spherical[0] = (z, 0)`, written in this order. -/
def changeToSphericalbasisC (f : ℚ × ℚ × ℚ) (m : List (Int × KC)) : List (Int × KC) :=
  let m := alist.set m 1 ⟨⟨0, -f.1 / 2, 0, 0⟩, ⟨0, -f.2.1 / 2, 0, 0⟩⟩
  let m := alist.set m (-1) ⟨⟨0, f.1 / 2, 0, 0⟩, ⟨0, -f.2.1 / 2, 0, 0⟩⟩
  alist.set m 0 (KC.ofRat f.2.2)

/-- `SystemOne::setEfield` (complex-scalar configuration). -/
def setEfield (field : ℚ × ℚ × ℚ) (s : SysOne) : SysOne :=
  let s := onParameterChange s
  let s := { s with efield := field }
  { s with efield_spherical := changeToSphericalbasisC field s.efield_spherical }

/-- `SystemOne::setBfield` (complex-scalar configuration): spherical
components, then the five diamagnetic coupling coefficients. -/
def setBfield (field : ℚ × ℚ × ℚ) (s : SysOne) : SysOne :=
  let s := onParameterChange s
  let s := { s with bfield := field }
  let sph := changeToSphericalbasisC field s.bfield_spherical
  let b0 := alist.get0 sph 0
  let bp := alist.get0 sph 1
  let bm := alist.get0 sph (-1)
  let dt := s.diamagnetism_terms
  let dt := alist.set dt (0, 0) (b0 * b0 - bp * bm * KC.ofRat 2)
  let dt := alist.set dt (2, 0) (b0 * b0 + bp * bm)
  let dt := alist.set dt (2, 1) (b0 * bm)
  let dt := alist.set dt (2, -1) (b0 * bp)
  let dt := alist.set dt (2, 2) (bm * bm)
  let dt := alist.set dt (2, -2) (bp * bp)
  { s with bfield_spherical := sph, diamagnetism_terms := dt }

/-- `SystemOne::deleteInteraction`: clear the four operator caches. -/
def deleteInteraction (s : SysOne) : SysOne :=
  { s with interaction_efield := [], interaction_bfield := [],
           interaction_diamagnetism := [], interaction_multipole := [] }

/-- `SystemOne::isRefelectionAndRotationCompatible` (sic): compatible iff
the momenta are unrestricted, or no reflection parity is set, or the
momenta set is closed under negation. -/
def isRefelectionAndRotationCompatible (s : SysOne) : Bool :=
  if ARBm2 ∈ s.sym_rotation ∨ s.sym_reflection = Parity.NA then true
  else s.sym_rotation.all (fun v => -v ∈ s.sym_rotation)

/-- `SystemOne::setConservedParityUnderReflection`; note that the C++
throws only after mutating, so the returned object carries the new parity
even on error. -/
def setConservedParityUnderReflection (p : Parity) (s : SysOne) : SysOne × Option String :=
  let s := onSymmetryChange s
  let s := { s with sym_reflection := p }
  if ¬ isRefelectionAndRotationCompatible s then
    (s, some "The conserved parity under reflection is not compatible to the previously specified conserved momenta.")
  else (s, none)

/-- `SystemOne::setConservedMomentaUnderRotation`; the `std::set<float>`
argument is modelled as a deduplicated list. -/
def setConservedMomentaUnderRotation (momenta : List Int) (s : SysOne) : SysOne × Option String :=
  let ms := momenta.dedup
  if ARBm2 ∈ ms ∧ ms.length > 1 then
    (s, some "If ARB (=arbitrary momentum) is specified, momenta must not be passed explicitely.")
  else
    let s := onSymmetryChange s
    let s := { s with sym_rotation := ms }
    if ¬ isRefelectionAndRotationCompatible s then
      (s, some "The conserved momenta are not compatible to the previously specified conserved parity under reflection.")
    else (s, none)

/-- Set equality of momenta lists (the C++ compares two `std::set`s by
size plus elementwise equality of the sorted sequences). -/
def momentaSetEq (a b : List Int) : Bool :=
  a.all (fun v => v ∈ b) && b.all (fun v => v ∈ a)

/-- `SystemOne::incorporate`: refuse to combine systems differing in
species, E-field, B-field or diamagnetism flag; otherwise degrade the
symmetries (reflection to `NA`; rotation to the union, or to `ARB` if
either side is unrestricted), warn if more than one symmetry differed,
and clear the cached interaction.  Returns (system, error, warning). -/
def incorporate (s other : SysOne) : SysOne × Option String × Bool :=
  if s.species ≠ other.species then
    (s, some "The value of the variable 'element' must be the same for both systems.", false)
  else if s.efield ≠ other.efield then
    (s, some "The value of the variable 'distance' must be the same for both systems.", false)
  else if s.bfield ≠ other.bfield then
    (s, some "The value of the variable 'angle' must be the same for both systems.", false)
  else if s.diamagnetism ≠ other.diamagnetism then
    (s, some "The value of the variable 'ordermax' must be the same for both systems.", false)
  else
    let (refl, n1) : Parity × Nat :=
      if s.sym_reflection ≠ other.sym_reflection then (Parity.NA, 1)
      else (s.sym_reflection, 0)
    let (rot, n2) : List Int × Nat :=
      if ¬ momentaSetEq s.sym_rotation other.sym_rotation then
        (if ARBm2 ∈ s.sym_rotation ∨ ARBm2 ∈ other.sym_rotation then ([ARBm2], 1)
         else (s.sym_rotation ++ other.sym_rotation.filter (fun v => ¬ v ∈ s.sym_rotation), 1))
      else (s.sym_rotation, 0)
    let warn := n1 + n2 > 1
    let s := { s with sym_reflection := refl, sym_rotation := rot }
    (deleteInteraction s, none, warn)

/-! ## Interaction construction (`SystemOne::initializeInteraction`) -/

/-- The numeric tolerance `1e-24` below which a source coefficient is
treated as zero. -/
def tolI : ℚ := 1 / 10 ^ 24

/-- The components to (re)build for the E-field family: iterate the
spherical map, skip negative components, keep a component whose coefficient
is above tolerance and whose negative is not cached yet. -/
def erangeOf (s : SysOne) : List Int :=
  (s.efield_spherical.filter (fun e =>
    ¬ e.1 < 0 ∧ (KC.absGt e.2 tolI ∧ (alist.find? s.interaction_efield (-e.1)).isNone))).map
    (fun e => e.1)

/-- The components to (re)build for the B-field family. -/
def brangeOf (s : SysOne) : List Int :=
  (s.bfield_spherical.filter (fun e =>
    ¬ e.1 < 0 ∧ (KC.absGt e.2 tolI ∧ (alist.find? s.interaction_bfield (-e.1)).isNone))).map
    (fun e => e.1)

/-- The (rank, component) keys to (re)build for the diamagnetic family. -/
def drangeOf (s : SysOne) : List (Int × Int) :=
  (s.diamagnetism_terms.filter (fun e =>
    ¬ e.1.2 < 0 ∧ (s.diamagnetism ∧ (KC.absGt e.2 tolI ∧
      (alist.find? s.interaction_diamagnetism e.1).isNone)))).map
    (fun e => e.1)

/-- The multipole orders to (re)build: `1..ordermax` not yet cached, when a
charge is present. -/
def orangeOf (s : SysOne) : List Int :=
  if s.charge ≠ 0 then
    ((List.range s.ordermax).map (fun k : Nat => (k : Int) + 1)).filter
      (fun o => (alist.find? s.interaction_multipole o).isNone)
  else []

/-- The double loop over all (column, row) basis-index pairs: a pair is
visited only if neither participating state is artificial (`continue` on
either side). -/
def doubleLoop {β : Type} (states : List StateOne)
    (f : Nat × StateOne → Nat × StateOne → List β) : List β :=
  states.enum.flatMap (fun c =>
    if c.2.artificial then []
    else states.enum.flatMap (fun r => if r.2.artificial then [] else f r c))

/-- Emission of one (row, column) pair for the E-field family: the first
component of `erange` that is not skipped by the lower-triangle rule for
component 0 and passes the selection rule emits one triplet (the `break`
after a hit). -/
def pairTripletsE (cache : ExtCache) (erange : List Int)
    (r c : Nat × StateOne) : List (Int × Trip) :=
  match erange.find? (fun i =>
      ¬ (i = 0 ∧ r.1 < c.1) ∧ cache.selectionRulesMultipoleNew r.2 c.2 1 i) with
  | some i => [(i, (r.1, c.1, cache.getElectricDipole r.2 c.2))]
  | none => []

/-- Emission of one (row, column) pair for the B-field family (same
`break` structure as the E-field family). -/
def pairTripletsB (cache : ExtCache) (brange : List Int)
    (r c : Nat × StateOne) : List (Int × Trip) :=
  match brange.find? (fun i =>
      ¬ (i = 0 ∧ r.1 < c.1) ∧ cache.selectionRulesMomentumNew r.2 c.2 i) with
  | some i => [(i, (r.1, c.1, cache.getMagneticDipole r.2 c.2))]
  | none => []

/-- Emission of one (row, column) pair for the diamagnetic family: every
surviving (rank, component) key emits (no `break`), with the
`1/(8·electron_rest_mass)` prefactor. -/
def pairTripletsD (cache : ExtCache) (drange : List (Int × Int))
    (r c : Nat × StateOne) : List ((Int × Int) × Trip) :=
  (drange.filter (fun i =>
      ¬ (i.2 = 0 ∧ r.1 < c.1) ∧ cache.selectionRulesMultipoleNew r.2 c.2 i.1 i.2)).map
    (fun i => (i, (r.1, c.1,
      KC.ofRat cache.invEightElectronRestMass * cache.getDiamagnetism r.2 c.2 i.1)))

/-- Emission of one (row, column) pair for the ion-multipole family: only
pairs with conserved total momentum (`q = m_r − m_c = 0`) emit, once per
order passing the order selection rule, with the `−k_e·e` prefactor. -/
def pairTripletsO (cache : ExtCache) (orange : List Int) (charge : Int)
    (r c : Nat × StateOne) : List (Int × Trip) :=
  if charge ≠ 0 ∧ r.2.m2 - c.2.m2 = 0 then
    (orange.filter (fun o => cache.selectionRulesMultipoleOrder r.2 c.2 o)).map
      (fun o => (o, (r.1, c.1, KC.ofRat cache.coulombFactor * cache.getElectricMultipole r.2 c.2 o)))
  else []

/-- The canonical triplets emitted for one key of one family. -/
def tripletsFor {κ : Type} [DecidableEq κ] (l : List (κ × Trip)) (k : κ) : List Trip :=
  (l.filter (fun p => p.1 = k)).map (fun p => p.2)

/-- Scalar times matrix (`coefficient * matrix` in Eigen). -/
def smulML (z : KC) (A : Mat) : Mat := fun r c => z * A r c

/-- Build-and-transform of one interaction family
(`SystemOne::initializeInteraction`, build phase): for each key of the
range, assemble the canonical matrix from its triplets; the zero component
is stored once, expanded through its lower-triangular self-adjoint view
and transformed; a nonzero component `k` is transformed and stored, and
its negative is stored as `phase(k)` times the adjoint of the stored
transform. -/
def storeFamily {κ : Type} [DecidableEq κ] (N : Nat) (B : Mat)
    (emitted : List (κ × Trip)) (range : List κ)
    (isZero : κ → Bool) (negK : κ → κ) (phase : κ → KC)
    (cache0 : List (κ × Mat)) : List (κ × Mat) :=
  range.foldl (fun acc k =>
    let M := ofTriplets (tripletsFor emitted k)
    if isZero k then alist.set acc k (basisTransform N B (selfadjointLowerM M))
    else
      let T := basisTransform N B M
      alist.set (alist.set acc k T) (negK k) (smulML (phase k) (adjointM T))) cache0

/-- `SystemOne::initializeInteraction`: compute the component ranges still
missing from the caches, return unchanged if nothing is to do, otherwise
run the double loop and store every family's transformed operators.  The
`cache.precalculate*` warm-up calls mutate only the external matrix-element
source, which the spec declares to behave as a pure deterministic
collaborator, so they have no semantic effect here. -/
def initializeInteraction (cache : ExtCache) (s : SysOne) : SysOne :=
  let erange := erangeOf s
  let brange := brangeOf s
  let drange := drangeOf s
  let orange := orangeOf s
  if erange.isEmpty ∧ brange.isEmpty ∧ drange.isEmpty ∧ orange.isEmpty then s
  else
    let N := s.states.length
    let eEmit := doubleLoop s.states (pairTripletsE cache erange)
    let bEmit := doubleLoop s.states (pairTripletsB cache brange)
    let dEmit := doubleLoop s.states (pairTripletsD cache drange)
    let oEmit := doubleLoop s.states (pairTripletsO cache orange s.charge)
    { s with
      interaction_efield :=
        storeFamily N s.basisvectors eEmit erange (fun i => i = 0) (fun i => -i)
          (fun i => KC.phasePow i) s.interaction_efield
      interaction_bfield :=
        storeFamily N s.basisvectors bEmit brange (fun i => i = 0) (fun i => -i)
          (fun i => KC.phasePow i) s.interaction_bfield
      interaction_diamagnetism :=
        storeFamily N s.basisvectors dEmit drange (fun i => i.2 = 0) (fun i => (i.1, -i.2))
          (fun i => KC.phasePow i.2) s.interaction_diamagnetism
      interaction_multipole :=
        if s.charge ≠ 0 then
          storeFamily N s.basisvectors oEmit orange (fun i => i = 0) (fun i => -i)
            (fun i => KC.phasePow i) s.interaction_multipole
        else s.interaction_multipole }

/-! ## Hamiltonian assembly (`SystemOne::addInteraction`) -/

/-- Cache lookup as `operator[]`: a missing operator reads as the (empty)
default-constructed matrix. -/
def cacheGetM {κ : Type} [DecidableEq κ] (l : List (κ × Mat)) (k : κ) : Mat :=
  (alist.find? l k).getD zeroM

/-- One `hamiltonian ±= matrix` statement of `SystemOne::addInteraction`:
a guard, a sign, and the already fully scaled matrix. -/
structure HamTerm where
  guard : Bool
  positive : Bool
  mat : Mat

/-- Apply one guarded `±=` statement. -/
def applyTerm (h : Mat) (t : HamTerm) : Mat :=
  if t.guard then (if t.positive then addM h t.mat else subM h t.mat) else h

/-- The sequence of guarded `±=` statements of `SystemOne::addInteraction`,
in program order: three E-field components, three B-field components, six
diamagnetic terms (the rank-2 `±1` components carrying the extra `√3` and
the `±2` components the extra `√1.5`), and one term per multipole order
when an ion charge is present at finite distance. -/
def hamTerms (s : SysOne) : List HamTerm :=
  let esph := alist.get0 s.efield_spherical
  let bsph := alist.get0 s.bfield_spherical
  let dterm := fun k => alist.get0 s.diamagnetism_terms k
  [⟨KC.absGt (esph 0) tolI, false, smulM (cacheGetM s.interaction_efield 0) (esph 0)⟩,
   ⟨KC.absGt (esph (-1)) tolI, true, smulM (cacheGetM s.interaction_efield 1) (esph (-1))⟩,
   ⟨KC.absGt (esph 1) tolI, true, smulM (cacheGetM s.interaction_efield (-1)) (esph 1)⟩,
   ⟨KC.absGt (bsph 0) tolI, false, smulM (cacheGetM s.interaction_bfield 0) (bsph 0)⟩,
   ⟨KC.absGt (bsph (-1)) tolI, true, smulM (cacheGetM s.interaction_bfield 1) (bsph (-1))⟩,
   ⟨KC.absGt (bsph 1) tolI, true, smulM (cacheGetM s.interaction_bfield (-1)) (bsph 1)⟩,
   ⟨s.diamagnetism && KC.absGt (dterm (0, 0)) tolI, true,
     smulM (cacheGetM s.interaction_diamagnetism (0, 0)) (dterm (0, 0))⟩,
   ⟨s.diamagnetism && KC.absGt (dterm (2, 0)) tolI, false,
     smulM (cacheGetM s.interaction_diamagnetism (2, 0)) (dterm (2, 0))⟩,
   ⟨s.diamagnetism && KC.absGt (dterm (2, 1)) tolI, true,
     smulM (smulM (cacheGetM s.interaction_diamagnetism (2, 1)) (dterm (2, 1))) KC.sqrt3⟩,
   ⟨s.diamagnetism && KC.absGt (dterm (2, -1)) tolI, true,
     smulM (smulM (cacheGetM s.interaction_diamagnetism (2, -1)) (dterm (2, -1))) KC.sqrt3⟩,
   ⟨s.diamagnetism && KC.absGt (dterm (2, 2)) tolI, false,
     smulM (smulM (cacheGetM s.interaction_diamagnetism (2, 2)) (dterm (2, 2))) KC.sqrt15⟩,
   ⟨s.diamagnetism && KC.absGt (dterm (2, -2)) tolI, false,
     smulM (smulM (cacheGetM s.interaction_diamagnetism (2, -2)) (dterm (2, -2))) KC.sqrt15⟩] ++
  ((List.range s.ordermax).map (fun k : Nat =>
    let order : Int := (k : Int) + 1
    let powerlaw : ℚ := match s.distance with
      | some d => 1 / d ^ (k + 2)
      | none => 0
    ⟨decide (s.charge ≠ 0) && s.distance.isSome, true,
      smulM (smulM (cacheGetM s.interaction_multipole order) (KC.ofRat (s.charge : ℚ)))
        (KC.ofRat powerlaw)⟩))

/-- `SystemOne::addInteraction`: run the guarded `±=` statements over the
field-free Hamiltonian. -/
def addInteraction (s : SysOne) : SysOne :=
  { s with hamiltonian := (hamTerms s).foldl applyTerm s.hamiltonian }

/-! ## The real-scalar configuration of the field setters -/

/-- Lookup with default `0` for `Q4`-valued maps (real configuration). -/
def alist.get0Q (l : List (Int × Q4)) (k : Int) : Q4 :=
  (alist.find? l k).getD 0

/-- The slice of `SystemOne` touched by the field setters, in the
real-scalar (`scalar_t = double`) configuration; field values then live in
the real ring `ℚ[√2,√3]`. -/
structure SysOneR where
  efield : ℚ × ℚ × ℚ
  bfield : ℚ × ℚ × ℚ
  efield_spherical : List (Int × Q4)
  bfield_spherical : List (Int × Q4)
  diamagnetism_terms : List ((Int × Int) × Q4)
  parametersDirty : Bool
deriving DecidableEq

/-- The real-scalar overload of `SystemOne::changeToSphericalbasis`: a
field with a nonzero y-coordinate needs a complex data type and throws
before writing anything; otherwise `[1] = -x/√2`, `[-1] = x/√2`,
`[0] = z`. -/
def changeToSphericalbasisR (f : ℚ × ℚ × ℚ) (m : List (Int × Q4)) :
    Except String (List (Int × Q4)) :=
  if f.2.1 ≠ 0 then
    .error "For fields with non-zero y-coordinates, a complex data type is needed."
  else
    let m := alist.set m 1 ⟨0, -f.1 / 2, 0, 0⟩
    let m := alist.set m (-1) ⟨0, f.1 / 2, 0, 0⟩
    .ok (alist.set m 0 ⟨f.2.2, 0, 0, 0⟩)

/-- `SystemOne::setEfield` in the real-scalar configuration.  The C++
mutates `efield` before converting to spherical coordinates, so when the
conversion throws, the escaping object keeps the new Cartesian field and
the old spherical components. -/
def setEfieldR (field : ℚ × ℚ × ℚ) (s : SysOneR) : SysOneR × Option String :=
  let s := { s with parametersDirty := true }
  let s := { s with efield := field }
  match changeToSphericalbasisR field s.efield_spherical with
  | .error e => (s, some e)
  | .ok m => ({ s with efield_spherical := m }, none)

/-- `SystemOne::setBfield` in the real-scalar configuration; on success the
five diamagnetic coefficients are recomputed from the new spherical
components, on error nothing past the Cartesian field is touched. -/
def setBfieldR (field : ℚ × ℚ × ℚ) (s : SysOneR) : SysOneR × Option String :=
  let s := { s with parametersDirty := true }
  let s := { s with bfield := field }
  match changeToSphericalbasisR field s.bfield_spherical with
  | .error e => (s, some e)
  | .ok sph =>
      let b0 := alist.get0Q sph 0
      let bp := alist.get0Q sph 1
      let bm := alist.get0Q sph (-1)
      let dt := s.diamagnetism_terms
      let dt := alist.set dt (0, 0) (b0 * b0 - Q4.mul (bp * bm) (Q4.ofRat 2))
      let dt := alist.set dt (2, 0) (b0 * b0 + bp * bm)
      let dt := alist.set dt (2, 1) (b0 * bm)
      let dt := alist.set dt (2, -1) (b0 * bp)
      let dt := alist.set dt (2, 2) (bm * bm)
      let dt := alist.set dt (2, -2) (bp * bp)
      ({ s with bfield_spherical := sph, diamagnetism_terms := dt }, none)

/-! ## Concrete fixtures for witnesses and counterexamples -/

/-- A trivial external source: all selection rules pass, all matrix
elements are `1`, all energies are `0`. -/
def cacheTriv : ExtCache where
  selectionRulesMultipoleNew := fun _ _ _ _ => true
  selectionRulesMultipoleOrder := fun _ _ _ => true
  selectionRulesMomentumNew := fun _ _ _ => true
  getElectricDipole := fun _ _ => 1
  getMagneticDipole := fun _ _ => 1
  getDiamagnetism := fun _ _ _ => 1
  getElectricMultipole := fun _ _ _ => 1
  getEnergy := fun _ => 0
  invEightElectronRestMass := 1
  coulombFactor := 1

/-- A fresh real-configuration system slice. -/
def sysR0 : SysOneR where
  efield := (0, 0, 0)
  bfield := (0, 0, 0)
  efield_spherical := []
  bfield_spherical := []
  diamagnetism_terms := []
  parametersDirty := false

/-! ## C10 — real-scalar field setters: error exactly on nonzero y, with
non-atomic mutation -/

/-- C10: in the real-scalar configuration, `setEfield`/`setBfield` raise
exactly when the field's y-component is nonzero, and when they raise, the
Cartesian field member has already been overwritten while the spherical
components (and, for `setBfield`, the diamagnetic coefficients) are left
untouched. -/
theorem setFieldR_error_iff_y_nonzero (f : ℚ × ℚ × ℚ) (s : SysOneR) :
    ((setEfieldR f s).2.isSome ↔ f.2.1 ≠ 0) ∧
    ((setBfieldR f s).2.isSome ↔ f.2.1 ≠ 0) ∧
    (f.2.1 ≠ 0 →
      (setEfieldR f s).1.efield = f ∧
      (setEfieldR f s).1.efield_spherical = s.efield_spherical ∧
      (setBfieldR f s).1.bfield = f ∧
      (setBfieldR f s).1.bfield_spherical = s.bfield_spherical ∧
      (setBfieldR f s).1.diamagnetism_terms = s.diamagnetism_terms) := by
  unfold setEfieldR setBfieldR changeToSphericalbasisR
  by_cases h : f.2.1 = 0 <;> simp [h]

/-- Witness for C10 at the concrete field `(0, 1, 0)`. -/
theorem setFieldR_error_iff_y_nonzero_witness :
    ((setEfieldR (0, 1, 0) sysR0).2.isSome ↔ (1 : ℚ) ≠ 0) ∧
    (setEfieldR (0, 1, 0) sysR0).1.efield = (0, 1, 0) ∧
    (setEfieldR (0, 1, 0) sysR0).1.efield_spherical = sysR0.efield_spherical := by
  have h := setFieldR_error_iff_y_nonzero (0, 1, 0) sysR0
  have hy : ((0, 1, 0) : ℚ × ℚ × ℚ).2.1 ≠ 0 := by decide
  exact ⟨h.1, (h.2.2 hy).1, (h.2.2 hy).2.1⟩


/-! ## C9 — field mutators leave the interaction caches untouched -/

/-- C9 counterexample: `setBfield` also rewrites the derived diamagnetic
coupling coefficients, which the claim's exhaustive list of changed members
("field vectors, their spherical components, the dirty state") omits. -/
theorem setBfield_changes_diamagnetism_terms :
    (setBfield (1, 0, 0) (mkSystemOne "Rb")).diamagnetism_terms ≠
      (mkSystemOne "Rb").diamagnetism_terms := by
  intro h
  have h22 : (alist.get0 (setBfield (1, 0, 0) (mkSystemOne "Rb")).diamagnetism_terms (2, 2)) =
      (alist.get0 (mkSystemOne "Rb").diamagnetism_terms (2, 2)) := by rw [h]
  revert h22
  decide

/-- C9 (amended): `setEfield` and `setBfield` leave every interaction
cache entry — and every other member except the Cartesian field, its
spherical components, the parameters-dirty flag and (for `setBfield`) the
derived diamagnetic coupling coefficients — unchanged. -/
theorem setFields_frame (f : ℚ × ℚ × ℚ) (s : SysOne) :
    (setEfield f s).interaction_efield = s.interaction_efield ∧
    (setEfield f s).interaction_bfield = s.interaction_bfield ∧
    (setEfield f s).interaction_diamagnetism = s.interaction_diamagnetism ∧
    (setEfield f s).interaction_multipole = s.interaction_multipole ∧
    (setBfield f s).interaction_efield = s.interaction_efield ∧
    (setBfield f s).interaction_bfield = s.interaction_bfield ∧
    (setBfield f s).interaction_diamagnetism = s.interaction_diamagnetism ∧
    (setBfield f s).interaction_multipole = s.interaction_multipole ∧
    (setEfield f s).states = s.states ∧
    (setEfield f s).basisvectors = s.basisvectors ∧
    (setEfield f s).hamiltonian = s.hamiltonian ∧
    (setEfield f s).species = s.species ∧
    (setEfield f s).sym_reflection = s.sym_reflection ∧
    (setEfield f s).sym_rotation = s.sym_rotation ∧
    (setEfield f s).charge = s.charge ∧
    (setEfield f s).ordermax = s.ordermax ∧
    (setEfield f s).distance = s.distance ∧
    (setEfield f s).diamagnetism = s.diamagnetism ∧
    (setEfield f s).bfield = s.bfield ∧
    (setEfield f s).bfield_spherical = s.bfield_spherical ∧
    (setEfield f s).diamagnetism_terms = s.diamagnetism_terms ∧
    (setEfield f s).symmetryDirty = s.symmetryDirty ∧
    (setEfield f s).parametersDirty = true ∧
    (setEfield f s).efield = f ∧
    (setBfield f s).states = s.states ∧
    (setBfield f s).basisvectors = s.basisvectors ∧
    (setBfield f s).hamiltonian = s.hamiltonian ∧
    (setBfield f s).species = s.species ∧
    (setBfield f s).sym_reflection = s.sym_reflection ∧
    (setBfield f s).sym_rotation = s.sym_rotation ∧
    (setBfield f s).charge = s.charge ∧
    (setBfield f s).ordermax = s.ordermax ∧
    (setBfield f s).distance = s.distance ∧
    (setBfield f s).diamagnetism = s.diamagnetism ∧
    (setBfield f s).efield = s.efield ∧
    (setBfield f s).efield_spherical = s.efield_spherical ∧
    (setBfield f s).symmetryDirty = s.symmetryDirty ∧
    (setBfield f s).parametersDirty = true ∧
    (setBfield f s).bfield = f := by
  and_intros <;> rfl

/-! ## C7 — combining two one-particle systems -/

/-- The number of symmetry axes (reflection parity, rotation momenta) in
which two systems differ. -/
def numDifferingSymmetries (s o : SysOne) : Nat :=
  (if s.sym_reflection ≠ o.sym_reflection then 1 else 0) +
  (if ¬ momentaSetEq s.sym_rotation o.sym_rotation then 1 else 0)

/-- C7: `incorporate` fails exactly when the two systems differ in species,
E-field, B-field or diamagnetism flag; when they agree on all of these it
succeeds even if the symmetries differ, raising the warning exactly when
more than one symmetry axis differs. -/
theorem incorporate_error_iff (s o : SysOne) :
    ((incorporate s o).2.1.isSome ↔
      (s.species ≠ o.species ∨ s.efield ≠ o.efield ∨ s.bfield ≠ o.bfield ∨
        s.diamagnetism ≠ o.diamagnetism)) ∧
    ((incorporate s o).2.1 = none →
      (incorporate s o).2.2 = decide (numDifferingSymmetries s o > 1)) := by
  unfold incorporate numDifferingSymmetries
  by_cases h1 : s.species = o.species <;>
  by_cases h2 : s.efield = o.efield <;>
  by_cases h3 : s.bfield = o.bfield <;>
  by_cases h4 : s.diamagnetism = o.diamagnetism <;>
  by_cases h5 : s.sym_reflection = o.sym_reflection <;>
  by_cases h6 : momentaSetEq s.sym_rotation o.sym_rotation = true <;>
  by_cases h7 : ARBm2 ∈ s.sym_rotation ∨ ARBm2 ∈ o.sym_rotation <;>
  simp [h1, h2, h3, h4, h5, h6, h7]

/-- Witness for C7: two identical fresh systems combine without error or
warning; systems of different species fail. -/
theorem incorporate_error_iff_witness :
    (incorporate (mkSystemOne "Rb") (mkSystemOne "Rb")).2.2 =
      decide (numDifferingSymmetries (mkSystemOne "Rb") (mkSystemOne "Rb") > 1) ∧
    (incorporate (mkSystemOne "Rb") (mkSystemOne "Cs")).2.1.isSome := by
  refine ⟨(incorporate_error_iff (mkSystemOne "Rb") (mkSystemOne "Rb")).2 (by decide),
    (incorporate_error_iff (mkSystemOne "Rb") (mkSystemOne "Cs")).1.mpr ?_⟩
  left
  decide

/-! ## C4 — compatibility of reflection parity and conserved momenta -/

/-- The claim's compatibility notion for a (reflection parity, momenta)
pair: the parity is unset, or the momenta are unrestricted, or the momenta
set is closed under negation. -/
def parityMomentaCompatible (p : Parity) (momenta : List Int) : Prop :=
  p = Parity.NA ∨ ARBm2 ∈ momenta ∨ ∀ v ∈ momenta, -v ∈ momenta

/-- The compatibility checker decides exactly `parityMomentaCompatible`. -/
theorem isRefelectionAndRotationCompatible_iff (s : SysOne) :
    isRefelectionAndRotationCompatible s = true ↔
      parityMomentaCompatible s.sym_reflection s.sym_rotation := by
  unfold isRefelectionAndRotationCompatible parityMomentaCompatible
  by_cases h : ARBm2 ∈ s.sym_rotation ∨ s.sym_reflection = Parity.NA
  · simp [h]
    tauto
  · push_neg at h
    simp [h.1, h.2, List.all_eq_true]

/-- C4 (amended): a symmetry setter succeeds exactly when the resulting
(reflection parity, momenta) pair is compatible — except that a momenta
set mixing the `ARB` sentinel with explicit values is rejected outright
by `setConservedMomentaUnderRotation`.  In particular momenta `{1, -1}`
followed by even reflection parity succeeds while momenta `{1}` followed
by even reflection parity fails. -/
theorem symmetrySetters_success_iff (p : Parity) (momenta : List Int) (s : SysOne) :
    ((setConservedParityUnderReflection p s).2 = none ↔
      parityMomentaCompatible p s.sym_rotation) ∧
    ((setConservedMomentaUnderRotation momenta s).2 = none ↔
      (¬ (ARBm2 ∈ momenta.dedup ∧ momenta.dedup.length > 1) ∧
        parityMomentaCompatible s.sym_reflection momenta.dedup)) ∧
    (setConservedParityUnderReflection Parity.EVEN
      (setConservedMomentaUnderRotation [2, -2] (mkSystemOne "Rb")).1).2 = none ∧
    (setConservedParityUnderReflection Parity.EVEN
      (setConservedMomentaUnderRotation [2] (mkSystemOne "Rb")).1).2 ≠ none := by
  refine ⟨?_, ?_, by decide, by decide⟩
  · unfold setConservedParityUnderReflection
    by_cases hc : parityMomentaCompatible p s.sym_rotation
    · have hb : isRefelectionAndRotationCompatible
          { onSymmetryChange s with sym_reflection := p } = true :=
        (isRefelectionAndRotationCompatible_iff _).mpr hc
      simp [hb, hc]
    · have hb : isRefelectionAndRotationCompatible
          { onSymmetryChange s with sym_reflection := p } = false :=
        Bool.eq_false_iff.mpr (fun h => hc ((isRefelectionAndRotationCompatible_iff _).mp h))
      simp [hb, hc]
  · unfold setConservedMomentaUnderRotation
    by_cases hg : ARBm2 ∈ momenta.dedup ∧ momenta.dedup.length > 1
    · simp [hg]
    · rw [if_neg hg]
      by_cases hc : parityMomentaCompatible s.sym_reflection momenta.dedup
      · have hb : isRefelectionAndRotationCompatible
            { onSymmetryChange s with sym_rotation := momenta.dedup } = true :=
          (isRefelectionAndRotationCompatible_iff _).mpr hc
        simp only [hb, Bool.not_eq_true', if_neg, Bool.true_eq_false, if_false]
        simp [hc]
        exact fun hm => Nat.le_of_not_lt (fun hl => hg ⟨List.mem_dedup.mpr hm, hl⟩)
      · have hb : isRefelectionAndRotationCompatible
            { onSymmetryChange s with sym_rotation := momenta.dedup } = false :=
          Bool.eq_false_iff.mpr (fun h => hc ((isRefelectionAndRotationCompatible_iff _).mp h))
        simp [hb, hc]

/-- C4 counterexample: a momenta set mixing the `ARB` sentinel with an
explicit value is rejected although the reflection parity is still unset,
which the claim's compatibility condition declares acceptable. -/
theorem setMomenta_ARB_mix_rejected :
    (mkSystemOne "Rb").sym_reflection = Parity.NA ∧
    (setConservedMomentaUnderRotation [ARBm2, 2] (mkSystemOne "Rb")).2 ≠ none :=
  ⟨rfl, by decide⟩

/-- Witness for C4: instantiate the setter characterization on a fresh
system with momenta `{1}` (doubled: `[2]`). -/
theorem symmetrySetters_success_iff_witness :
    ((setConservedMomentaUnderRotation [2] (mkSystemOne "Rb")).2 = none ↔
      (¬ (ARBm2 ∈ ([2] : List Int).dedup ∧ ([2] : List Int).dedup.length > 1) ∧
        parityMomentaCompatible (mkSystemOne "Rb").sym_reflection ([2] : List Int).dedup)) :=
  (symmetrySetters_success_iff Parity.EVEN [2] (mkSystemOne "Rb")).2.1

/-! ## C3 — empty n-restriction handling in `initializeBasis` -/

/-- The restriction configuration of the C3 counterexample: empty
n-restriction but a finite energy window on both sides. -/
def paramsEmptyNFiniteWindow : BasisParams where
  species := "X"
  range_n := []
  range_l := []
  range_j2 := []
  range_m2 := []
  energy_min := some (-1)
  energy_max := some 1
  states_to_add := []
  sym_reflection := Parity.NA
  sym_rotation := [ARBm2]

/-- C3 counterexample: with an empty n-restriction and a finite energy
window the build does not succeed — deriving the n-range from the energy
window is not implemented, and `initializeBasis` throws. -/
theorem initializeBasis_emptyN_finiteWindow_fails :
    initializeBasis cacheTriv paramsEmptyNFiniteWindow =
      .error "The calculation of range_n via energy restrictions is not yet implemented." := by
  decide

/-- C3 (amended): whenever the n-restriction set is empty,
`initializeBasis` fails with an explicit error and materializes no basis:
with the energy window unrestricted on either side it reports the
infinite-basis error, and otherwise it reports that deriving the n-range
from the energy restrictions is not implemented. -/
theorem initializeBasis_emptyN_fails (cache : ExtCache) (p : BasisParams)
    (h : p.range_n = []) :
    initializeBasis cache p =
      .error (if p.energy_min.isNone ∨ p.energy_max.isNone
        then "The number of basis elements is infinite. The basis has to be restricted."
        else "The calculation of range_n via energy restrictions is not yet implemented.") := by
  unfold initializeBasis
  simp [h]
  split <;> rfl

/-- Witness for C3 at the two concrete window configurations. -/
theorem initializeBasis_emptyN_fails_witness :
    initializeBasis cacheTriv paramsEmptyNFiniteWindow =
      .error (if paramsEmptyNFiniteWindow.energy_min.isNone ∨
          paramsEmptyNFiniteWindow.energy_max.isNone
        then "The number of basis elements is infinite. The basis has to be restricted."
        else "The calculation of range_n via energy restrictions is not yet implemented.") ∧
    initializeBasis cacheTriv { paramsEmptyNFiniteWindow with energy_max := none } =
      .error (if ({ paramsEmptyNFiniteWindow with energy_max := none } : BasisParams).energy_min.isNone ∨
          ({ paramsEmptyNFiniteWindow with energy_max := none } : BasisParams).energy_max.isNone
        then "The number of basis elements is infinite. The basis has to be restricted."
        else "The calculation of range_n via energy restrictions is not yet implemented.") :=
  ⟨initializeBasis_emptyN_fails cacheTriv paramsEmptyNFiniteWindow rfl,
   initializeBasis_emptyN_fails cacheTriv _ rfl⟩

/-! ## C5 — which (row, column) pairs emit triplets -/

/-- `find?` returns the unique satisfying element. -/
theorem find?_of_unique {α : Type} {p : α → Bool} {l : List α} {a : α}
    (h : ∀ b ∈ l, p b = true → b = a) (ha : a ∈ l) (hpa : p a = true) :
    l.find? p = some a := by
  induction l with
  | nil => cases ha
  | cons x xs ih =>
    by_cases hx : p x = true
    · have hxa : x = a := h x (List.mem_cons_self x xs) hx
      subst hxa
      simp [List.find?, hx]
    · rcases List.mem_cons.mp ha with h' | h'
      · exact absurd (h' ▸ hpa) hx
      · simp only [List.find?, hx]
        exact ih (fun b hb => h b (List.mem_cons_of_mem _ hb)) h'

/-- Membership characterization of the double loop: an element is emitted
iff some visited pair — both states non-artificial — emits it. -/
theorem mem_doubleLoop {β : Type} (states : List StateOne)
    (f : Nat × StateOne → Nat × StateOne → List β) (x : β) :
    x ∈ doubleLoop states f ↔
      ∃ cp ∈ states.enum, ∃ rp ∈ states.enum,
        cp.2.artificial = false ∧ rp.2.artificial = false ∧ x ∈ f rp cp := by
  unfold doubleLoop
  simp only [List.mem_flatMap]
  constructor
  · rintro ⟨cp, hcp, hx⟩
    by_cases hca : cp.2.artificial = true
    · simp [hca] at hx
    · have hca' := Bool.eq_false_iff.mpr hca
      simp only [hca', Bool.false_eq_true, if_false] at hx
      simp only [List.mem_flatMap] at hx
      obtain ⟨rp, hrp, hx⟩ := hx
      by_cases hra : rp.2.artificial = true
      · simp [hra] at hx
      · have hra' := Bool.eq_false_iff.mpr hra
        simp only [hra', Bool.false_eq_true, if_false] at hx
        exact ⟨cp, hcp, rp, hrp, hca', hra', hx⟩
  · rintro ⟨cp, hcp, rp, hrp, hca, hra, hx⟩
    refine ⟨cp, hcp, ?_⟩
    simp only [hca, Bool.false_eq_true, if_false]
    simp only [List.mem_flatMap]
    exact ⟨rp, hrp, by simp only [hra, Bool.false_eq_true, if_false]; exact hx⟩

/-- Per-pair emission for the E-field family, under the physical
assumption that at most one spherical component passes the selection rule
for a given state pair (so the `break` drops nothing). -/
theorem mem_pairTripletsE (cache : ExtCache) (erange : List Int)
    (r c : Nat × StateOne) (q : Int) (t : Trip)
    (hexcl : ∀ i ∈ erange, ∀ i' ∈ erange,
      cache.selectionRulesMultipoleNew r.2 c.2 1 i = true →
      cache.selectionRulesMultipoleNew r.2 c.2 1 i' = true → i = i') :
    (q, t) ∈ pairTripletsE cache erange r c ↔
      q ∈ erange ∧ ¬ (q = 0 ∧ r.1 < c.1) ∧
        cache.selectionRulesMultipoleNew r.2 c.2 1 q = true ∧
        t = (r.1, c.1, cache.getElectricDipole r.2 c.2) := by
  unfold pairTripletsE
  constructor
  · intro hm
    cases hfind : erange.find? (fun i =>
        ¬ (i = 0 ∧ r.1 < c.1) ∧ cache.selectionRulesMultipoleNew r.2 c.2 1 i) with
    | none => rw [hfind] at hm; cases hm
    | some i =>
      rw [hfind] at hm
      simp only [List.mem_singleton, Prod.mk.injEq] at hm
      obtain ⟨rfl, rfl⟩ := hm
      have hp := List.find?_some hfind
      have hmem := List.mem_of_find?_eq_some hfind
      simp only [Bool.and_eq_true, decide_eq_true_eq] at hp
      exact ⟨hmem, hp.1, hp.2, rfl⟩
  · rintro ⟨hq, hskip, hrule, rfl⟩
    have hfind : erange.find? (fun i =>
        ¬ (i = 0 ∧ r.1 < c.1) ∧ cache.selectionRulesMultipoleNew r.2 c.2 1 i) = some q := by
      refine find?_of_unique (fun b hb hpb => ?_) hq (by
        simp only [Bool.and_eq_true, decide_eq_true_eq]
        exact ⟨hskip, hrule⟩)
      simp only [Bool.and_eq_true, decide_eq_true_eq] at hpb
      exact hexcl b hb q hq hpb.2 hrule
    rw [hfind]
    simp

/-- Per-pair emission for the diamagnetic family (no `break`). -/
theorem mem_pairTripletsD (cache : ExtCache) (drange : List (Int × Int))
    (r c : Nat × StateOne) (k : Int × Int) (t : Trip) :
    (k, t) ∈ pairTripletsD cache drange r c ↔
      k ∈ drange ∧ ¬ (k.2 = 0 ∧ r.1 < c.1) ∧
        cache.selectionRulesMultipoleNew r.2 c.2 k.1 k.2 = true ∧
        t = (r.1, c.1,
          KC.mul (KC.ofRat cache.invEightElectronRestMass) (cache.getDiamagnetism r.2 c.2 k.1)) := by
  unfold pairTripletsD
  simp only [List.mem_map, List.mem_filter, Bool.and_eq_true, decide_eq_true_eq,
    Prod.mk.injEq]
  constructor
  · rintro ⟨i, ⟨⟨hi, hskip, hrule⟩, rfl, rfl⟩⟩
    exact ⟨hi, hskip, hrule, rfl⟩
  · rintro ⟨hk, hskip, hrule, rfl⟩
    exact ⟨k, ⟨hk, hskip, hrule⟩, rfl, rfl⟩

/-- C5 (amended): the interaction double loop skips a (row, column) pair
iff at least one of the two states is artificial; for every pair of
non-artificial states the selection-rule predicate decides emission — for
the zero spherical component only on or below the diagonal — and a hit
queries the external source and emits exactly one triplet carrying its
value.  (Stated for the E-field family, whose per-pair loop `break`s after
a hit and therefore needs the physical assumption that at most one
component passes the selection rule for a given state pair, and for the
diamagnetic family, which has no `break`.) -/
theorem interactionLoop_emission_iff (cache : ExtCache) (states : List StateOne)
    (erange : List Int) (drange : List (Int × Int))
    (hexcl : ∀ r c : StateOne, ∀ i ∈ erange, ∀ i' ∈ erange,
      cache.selectionRulesMultipoleNew r c 1 i = true →
      cache.selectionRulesMultipoleNew r c 1 i' = true → i = i') :
    (∀ rp ∈ states.enum, ∀ cp ∈ states.enum, ∀ q : Int,
      ((q, (rp.1, cp.1, cache.getElectricDipole rp.2 cp.2)) ∈
          doubleLoop states (pairTripletsE cache erange) ↔
        rp.2.artificial = false ∧ cp.2.artificial = false ∧ q ∈ erange ∧
          ¬ (q = 0 ∧ rp.1 < cp.1) ∧
          cache.selectionRulesMultipoleNew rp.2 cp.2 1 q = true)) ∧
    (∀ rp ∈ states.enum, ∀ cp ∈ states.enum, ∀ k : Int × Int,
      ((k, (rp.1, cp.1,
          KC.mul (KC.ofRat cache.invEightElectronRestMass)
            (cache.getDiamagnetism rp.2 cp.2 k.1))) ∈
          doubleLoop states (pairTripletsD cache drange) ↔
        rp.2.artificial = false ∧ cp.2.artificial = false ∧ k ∈ drange ∧
          ¬ (k.2 = 0 ∧ rp.1 < cp.1) ∧
          cache.selectionRulesMultipoleNew rp.2 cp.2 k.1 k.2 = true)) := by
  have hinj : ∀ (i : Nat) (a b : StateOne),
      (i, a) ∈ states.enum → (i, b) ∈ states.enum → a = b := by
    intro i a b ha hb
    have ha' := List.mk_mem_enum_iff_getElem?.mp ha
    have hb' := List.mk_mem_enum_iff_getElem?.mp hb
    rw [ha'] at hb'
    exact Option.some.inj hb'
  constructor
  · intro rp hrp cp hcp q
    constructor
    · intro hm
      obtain ⟨cp', hcp', rp', hrp', hca', hra', hx⟩ := (mem_doubleLoop states _ _).mp hm
      have hx' := (mem_pairTripletsE cache erange rp' cp' q _
        (fun i hi i' hi' => hexcl rp'.2 cp'.2 i hi i' hi')).mp hx
      obtain ⟨hq, hskip, hrule, ht⟩ := hx'
      -- the emitted coordinates identify the visited pair
      have hr1 : rp'.1 = rp.1 := (congrArg (fun t : Trip => t.1) ht).symm
      have hc1 : cp'.1 = cp.1 := (congrArg (fun t : Trip => t.2.1) ht).symm
      have hrEq : rp' = rp := by
        have := hinj rp.1 rp'.2 rp.2 (by rw [← hr1]; exact (Prod.mk.eta ▸ hrp' : (rp'.1, rp'.2) ∈ states.enum)) (Prod.mk.eta ▸ hrp)
        calc rp' = (rp'.1, rp'.2) := by rw [Prod.mk.eta]
          _ = (rp.1, rp.2) := by rw [hr1, this]
          _ = rp := by rw [Prod.mk.eta]
      have hcEq : cp' = cp := by
        have := hinj cp.1 cp'.2 cp.2 (by rw [← hc1]; exact (Prod.mk.eta ▸ hcp' : (cp'.1, cp'.2) ∈ states.enum)) (Prod.mk.eta ▸ hcp)
        calc cp' = (cp'.1, cp'.2) := by rw [Prod.mk.eta]
          _ = (cp.1, cp.2) := by rw [hc1, this]
          _ = cp := by rw [Prod.mk.eta]
      subst hrEq hcEq
      exact ⟨hra', hca', hq, hskip, hrule⟩
    · rintro ⟨hra, hca, hq, hskip, hrule⟩
      refine (mem_doubleLoop states _ _).mpr ⟨cp, hcp, rp, hrp, hca, hra, ?_⟩
      exact (mem_pairTripletsE cache erange rp cp q _
        (fun i hi i' hi' => hexcl rp.2 cp.2 i hi i' hi')).mpr ⟨hq, hskip, hrule, rfl⟩
  · intro rp hrp cp hcp k
    constructor
    · intro hm
      obtain ⟨cp', hcp', rp', hrp', hca', hra', hx⟩ := (mem_doubleLoop states _ _).mp hm
      have hx' := (mem_pairTripletsD cache drange rp' cp' k _).mp hx
      obtain ⟨hk, hskip, hrule, ht⟩ := hx'
      have hr1 : rp'.1 = rp.1 := (congrArg (fun t : Trip => t.1) ht).symm
      have hc1 : cp'.1 = cp.1 := (congrArg (fun t : Trip => t.2.1) ht).symm
      have hrEq : rp' = rp := by
        have := hinj rp.1 rp'.2 rp.2 (by rw [← hr1]; exact (Prod.mk.eta ▸ hrp' : (rp'.1, rp'.2) ∈ states.enum)) (Prod.mk.eta ▸ hrp)
        calc rp' = (rp'.1, rp'.2) := by rw [Prod.mk.eta]
          _ = (rp.1, rp.2) := by rw [hr1, this]
          _ = rp := by rw [Prod.mk.eta]
      have hcEq : cp' = cp := by
        have := hinj cp.1 cp'.2 cp.2 (by rw [← hc1]; exact (Prod.mk.eta ▸ hcp' : (cp'.1, cp'.2) ∈ states.enum)) (Prod.mk.eta ▸ hcp)
        calc cp' = (cp'.1, cp'.2) := by rw [Prod.mk.eta]
          _ = (cp.1, cp.2) := by rw [hc1, this]
          _ = cp := by rw [Prod.mk.eta]
      subst hrEq hcEq
      exact ⟨hra', hca', hk, hskip, hrule⟩
    · rintro ⟨hra, hca, hk, hskip, hrule⟩
      refine (mem_doubleLoop states _ _).mpr ⟨cp, hcp, rp, hrp, hca, hra, ?_⟩
      exact (mem_pairTripletsD cache drange rp cp k _).mpr ⟨hk, hskip, hrule, rfl⟩

/-- An artificial placeholder state and a physical state used by the C5
and C1 scenarios. -/
def stArtEx : StateOne := ⟨"X", 1, 0, 1, 1, true⟩

/-- A physical (non-artificial) state. -/
def stRealEx : StateOne := ⟨"X", 2, 0, 1, 1, false⟩

/-- C5 counterexample: in a two-state basis whose first state is
artificial, the pair (artificial row, physical column) has only one
artificial participant and passes the always-true selection rule, yet the
double loop emits no triplet for it — the loop skips a pair as soon as
either participant is artificial, not only when both are. -/
theorem doubleLoop_skips_half_artificial_pair :
    stArtEx.artificial = true ∧ stRealEx.artificial = false ∧
    cacheTriv.selectionRulesMultipoleNew stArtEx stRealEx 1 1 = true ∧
    doubleLoop [stArtEx, stRealEx] (pairTripletsE cacheTriv [1]) =
      [(1, (1, 1, cacheTriv.getElectricDipole stRealEx stRealEx))] ∧
    ¬ ((1 : Int), ((0 : Nat), (1 : Nat), cacheTriv.getElectricDipole stArtEx stRealEx)) ∈
        doubleLoop [stArtEx, stRealEx] (pairTripletsE cacheTriv [1]) := by
  refine ⟨rfl, rfl, rfl, by decide, ?_⟩
  intro hm
  revert hm
  decide

/-- Witness for C5: instantiate the emission characterization on the
two-state basis, at the physical-physical pair and at the mixed pair. -/
theorem interactionLoop_emission_iff_witness :
    (((1 : Int), ((1 : Nat), (1 : Nat), cacheTriv.getElectricDipole stRealEx stRealEx)) ∈
        doubleLoop [stArtEx, stRealEx] (pairTripletsE cacheTriv [1]) ↔
      stRealEx.artificial = false ∧ stRealEx.artificial = false ∧ (1 : Int) ∈ [(1 : Int)] ∧
        ¬ ((1 : Int) = 0 ∧ (1 : Nat) < (1 : Nat)) ∧
        cacheTriv.selectionRulesMultipoleNew stRealEx stRealEx 1 1 = true) :=
  (interactionLoop_emission_iff cacheTriv [stArtEx, stRealEx] [1] []
      (fun r c i hi i' hi' _ _ => by
        simp only [List.mem_singleton] at hi hi'
        rw [hi, hi'])).1
    (1, stRealEx) (by decide) (1, stRealEx) (by decide) 1

/-! ## C6 — assembly of the total Hamiltonian -/

/-- Associativity of addition in `ℚ[√2,√3]`. -/
theorem Q4.add_assoc4 (x y z : Q4) : Q4.add (Q4.add x y) z = Q4.add x (Q4.add y z) := by
  unfold Q4.add
  simp only [Q4.mk.injEq]
  refine ⟨?_, ?_, ?_, ?_⟩ <;> ring

/-- `x + 0 = x` in `ℚ[√2,√3]`. -/
theorem Q4.add_zero4 (x : Q4) : Q4.add x 0 = x := by
  unfold Q4.add
  show Q4.mk (x.a + 0) (x.b + 0) (x.c + 0) (x.d + 0) = x
  simp

/-- Associativity of addition in `ℚ[√2,√3,i]`. -/
theorem KC.add_assoc3 (x y z : KC) : KC.add (KC.add x y) z = KC.add x (KC.add y z) := by
  unfold KC.add
  simp only [KC.mk.injEq]
  exact ⟨Q4.add_assoc4 _ _ _, Q4.add_assoc4 _ _ _⟩

/-- `x + 0 = x` in `ℚ[√2,√3,i]`. -/
theorem KC.add_zero3 (x : KC) : KC.add x 0 = x := by
  unfold KC.add
  show KC.mk (Q4.add x.re 0) (Q4.add x.im 0) = x
  rw [Q4.add_zero4, Q4.add_zero4]

/-- `(h + x) ± m = h + (x ± m)` pointwise. -/
theorem applyTerm_addM (h x : Mat) (t : HamTerm) :
    applyTerm (addM h x) t = addM h (applyTerm x t) := by
  unfold applyTerm
  by_cases hg : t.guard = true
  · by_cases hp : t.positive = true
    · simp only [hg, hp, if_true]
      funext r c
      exact KC.add_assoc3 _ _ _
    · simp only [hg, Bool.eq_false_iff.mpr hp, Bool.false_eq_true, if_true, if_false]
      funext r c
      show KC.sub (KC.add (h r c) (x r c)) (t.mat r c) =
        KC.add (h r c) (KC.sub (x r c) (t.mat r c))
      unfold KC.sub
      exact KC.add_assoc3 _ _ _
  · simp [Bool.eq_false_iff.mpr hg]

/-- Folding the guarded `±=` statements over `h` is `h` plus the fold over
the zero matrix. -/
theorem foldl_applyTerm_split (l : List HamTerm) (h : Mat) :
    l.foldl applyTerm h = addM h (l.foldl applyTerm zeroM) := by
  induction l generalizing h with
  | nil =>
    funext r c
    exact (KC.add_zero3 _).symm
  | cons t ts ih =>
    simp only [List.foldl_cons]
    rw [ih (applyTerm h t), ih (applyTerm zeroM t)]
    have h1 : applyTerm h t = addM h (applyTerm zeroM t) := by
      have h2 := applyTerm_addM h zeroM t
      have h3 : addM h zeroM = h := by
        funext r c
        exact KC.add_zero3 _
      rw [h3] at h2
      exact h2
    rw [h1]
    funext r c
    exact KC.add_assoc3 _ _ _

/-- Guard-false statements are no-ops, so the fold runs over the included
(above-tolerance) terms only. -/
theorem foldl_applyTerm_filter (l : List HamTerm) (h : Mat) :
    l.foldl applyTerm h = (l.filter (fun t => t.guard)).foldl applyTerm h := by
  induction l generalizing h with
  | nil => rfl
  | cons t ts ih =>
    by_cases hg : t.guard = true
    · simp only [List.foldl_cons, List.filter_cons, hg, if_true]
      exact ih _
    · have hg' := Bool.eq_false_iff.mpr hg
      simp only [List.foldl_cons, List.filter_cons, hg', Bool.false_eq_true, if_false]
      rw [show applyTerm h t = h by unfold applyTerm; simp [hg']]
      exact ih h

/-- The total interaction operator: the included guarded terms summed up
from the zero matrix. -/
def interactionSum (s : SysOne) : Mat := (hamTerms s).foldl applyTerm zeroM

/-- C6 (amended): `addInteraction` assembles the total Hamiltonian as the
field-free operator plus the sum of the included interaction terms, each
scaled by its (signed) field/charge coefficient; terms whose guard fails —
the field and diamagnetic terms with source coefficient of absolute value
at most `1e-24` (and, for diamagnetic terms, with diamagnetism disabled) —
are omitted entirely, while the ion multipole terms are included whenever
the charge is nonzero and the distance finite, regardless of magnitude;
the rank-2 diamagnetic `±1` matrices carry the extra factor `√3` and the
`±2` matrices the extra factor `√1.5`. -/
theorem addInteraction_assembles (s : SysOne) :
    ((addInteraction s).hamiltonian = addM s.hamiltonian (interactionSum s)) ∧
    (interactionSum s = ((hamTerms s).filter (fun t => t.guard)).foldl applyTerm zeroM) ∧
    (((hamTerms s).take 12).map (fun t => t.guard) =
      [KC.absGt (alist.get0 s.efield_spherical 0) tolI,
       KC.absGt (alist.get0 s.efield_spherical (-1)) tolI,
       KC.absGt (alist.get0 s.efield_spherical 1) tolI,
       KC.absGt (alist.get0 s.bfield_spherical 0) tolI,
       KC.absGt (alist.get0 s.bfield_spherical (-1)) tolI,
       KC.absGt (alist.get0 s.bfield_spherical 1) tolI,
       s.diamagnetism && KC.absGt (alist.get0 s.diamagnetism_terms (0, 0)) tolI,
       s.diamagnetism && KC.absGt (alist.get0 s.diamagnetism_terms (2, 0)) tolI,
       s.diamagnetism && KC.absGt (alist.get0 s.diamagnetism_terms (2, 1)) tolI,
       s.diamagnetism && KC.absGt (alist.get0 s.diamagnetism_terms (2, -1)) tolI,
       s.diamagnetism && KC.absGt (alist.get0 s.diamagnetism_terms (2, 2)) tolI,
       s.diamagnetism && KC.absGt (alist.get0 s.diamagnetism_terms (2, -2)) tolI]) ∧
    (((hamTerms s).drop 12).map (fun t => t.guard) =
      (List.range s.ordermax).map (fun _ => decide (s.charge ≠ 0) && s.distance.isSome)) ∧
    ((hamTerms s).get? 8).map (fun t => t.mat) =
      some (smulM (smulM (cacheGetM s.interaction_diamagnetism (2, 1))
        (alist.get0 s.diamagnetism_terms (2, 1))) KC.sqrt3) ∧
    ((hamTerms s).get? 9).map (fun t => t.mat) =
      some (smulM (smulM (cacheGetM s.interaction_diamagnetism (2, -1))
        (alist.get0 s.diamagnetism_terms (2, -1))) KC.sqrt3) ∧
    ((hamTerms s).get? 10).map (fun t => t.mat) =
      some (smulM (smulM (cacheGetM s.interaction_diamagnetism (2, 2))
        (alist.get0 s.diamagnetism_terms (2, 2))) KC.sqrt15) ∧
    ((hamTerms s).get? 11).map (fun t => t.mat) =
      some (smulM (smulM (cacheGetM s.interaction_diamagnetism (2, -2))
        (alist.get0 s.diamagnetism_terms (2, -2))) KC.sqrt15) := by
  refine ⟨foldl_applyTerm_split (hamTerms s) s.hamiltonian,
    foldl_applyTerm_filter (hamTerms s) zeroM, rfl, ?_, rfl, rfl, rfl, rfl⟩
  show (((hamTerms s).drop 12).map (fun t => t.guard)) = _
  unfold hamTerms
  rw [List.drop_left' (by rfl), List.map_map]
  apply List.map_congr_left
  intro k _
  rfl

/-- The C6 counterexample system: unit charge, one multipole order, a huge
but finite distance, whose cached first-order multipole operator has a
single unit entry. -/
def sysC6 : SysOne :=
  { mkSystemOne "X" with
    charge := 1
    ordermax := 1
    distance := some (10 ^ 30)
    interaction_multipole := [(1, ofTriplets [(0, 0, 1)])] }

/-- C6 counterexample: the first-order ion-multipole coefficient
`charge/distance²` here has absolute value `1e-60 ≤ 1e-24`, yet
`addInteraction` still adds the term — the Hamiltonian entry changes — so
the claim that every term with source coefficient at most `1e-24` in
magnitude is omitted fails for the multipole family. -/
theorem addInteraction_keeps_tiny_multipole :
    KC.absGt (KC.ofRat ((sysC6.charge : ℚ) * (1 / (10 ^ 30 : ℚ) ^ 2))) tolI = false ∧
    (addInteraction sysC6).hamiltonian 0 0 ≠ sysC6.hamiltonian 0 0 := by
  constructor
  · decide
  · decide


/-! ## C8 — user-added states -/

/-- Registering a state makes it a member of the registry. -/
theorem mem_addBasisvectors_self (state : StateOne) (idx : Nat) (v : KC) (st : BuildSt) :
    state ∈ (addBasisvectors state idx v st).states := by
  unfold addBasisvectors
  cases hf : st.states.findIdx? (fun s => s = state) with
  | some row =>
    obtain ⟨hlt, hp, -⟩ := List.findIdx?_eq_some_iff_getElem.mp hf
    have hrow : st.states[row] = state := by simpa using hp
    exact hrow ▸ List.getElem_mem hlt
  | none =>
    exact List.mem_append_right _ (List.mem_singleton_self state)

/-- Registration only appends to the registry. -/
theorem addBasisvectors_mono (state : StateOne) (idx : Nat) (v : KC) (st : BuildSt)
    (u : StateOne) (hu : u ∈ st.states) : u ∈ (addBasisvectors state idx v st).states := by
  unfold addBasisvectors
  cases hf : st.states.findIdx? (fun s => s = state) with
  | some row => exact hu
  | none => exact List.mem_append_left _ hu

/-- A state passed to the symmetrization step is registered, unless it is
the skipped negative-`m` branch of a reflection pair. -/
theorem mem_addSymmetrizedBasisvectors_self (state : StateOne) (energy : ℚ)
    (symLocal : Parity) (st : BuildSt)
    (h : symLocal = Parity.NA ∨ 0 ≤ state.m2) :
    state ∈ (addSymmetrizedBasisvectors state energy symLocal st).states := by
  unfold addSymmetrizedBasisvectors
  have hskip : ¬ (symLocal ≠ Parity.NA ∧ state.m2 ≠ 0 ∧ state.m2 < 0) := by
    rcases h with h | h
    · simp [h]
    · rintro ⟨-, -, hlt⟩
      omega
  rw [if_neg hskip]
  dsimp only
  split
  · exact addBasisvectors_mono _ _ _ _ _ (mem_addBasisvectors_self _ _ _ _)
  · exact mem_addBasisvectors_self _ _ _ _

/-- `pure` in the `Except` monad. -/
theorem exceptPure_eq {ε α : Type} (a : α) : (pure a : Except ε α) = Except.ok a := rfl

/-- Binding an error short-circuits. -/
theorem exceptBind_error {ε α β : Type} (e : ε) (f : α → Except ε β) :
    (Except.error e >>= f) = Except.error e := rfl

/-- Binding a success applies the continuation. -/
theorem exceptBind_ok {ε α β : Type} (a : α) (f : α → Except ε β) :
    (Except.ok a >>= f) = f a := rfl

/-- The pre-check loop succeeds iff no user-added state is already
registered and every non-artificial one matches the system's species. -/
theorem userPrecheck_ok_iff (p : BasisParams) (st : BuildSt) :
    userPrecheck p st = .ok () ↔
      ∀ u ∈ p.states_to_add, ¬ u ∈ st.states ∧
        (u.artificial = false → u.species = p.species) := by
  unfold userPrecheck
  generalize p.states_to_add = l
  induction l with
  | nil =>
    simp
    rfl
  | cons x xs ih =>
    rw [List.foldlM_cons]
    by_cases h1 : x ∈ st.states
    · simp [h1, exceptBind_error]
    · by_cases h2 : x.artificial = false ∧ x.species ≠ p.species
      · have h2' : (¬ x.artificial = true ∧ x.species ≠ p.species) := by
          exact ⟨by simp [h2.1], h2.2⟩
        simp [h1, h2', exceptBind_error, h2.1, h2.2]
      · have h2' : ¬ (¬ x.artificial = true ∧ x.species ≠ p.species) := by
          intro hcon
          exact h2 ⟨Bool.eq_false_iff.mpr hcon.1, hcon.2⟩
        simp only [if_neg h1, if_neg h2', exceptBind_ok, ih]
        constructor
        · intro hall
          refine fun u hu => ?_
          rcases List.mem_cons.mp hu with rfl | hu'
          · refine ⟨h1, fun hart => ?_⟩
            by_contra hsp
            exact h2' ⟨by simp [hart], hsp⟩
          · exact hall u hu'
        · intro hall u hu
          exact hall u (List.mem_cons_of_mem _ hu)

/-- C8 (amended): the first user-state loop fails iff some user-added
state is already registered or is non-artificial of the wrong species;
the per-state registration step then (with symmetries locally downgraded
for artificial states) silently skips — without registering — any state
whose `m` is excluded by the conserved-momenta set, fails when the
(locally effective) reflection symmetry requires an absent mirror partner,
and otherwise registers the state through the symmetrization step, without
quantum-number enumeration. -/
theorem userStates_processing (cache : ExtCache) (p : BasisParams) (st : BuildSt)
    (state : StateOne) :
    (userPrecheck p st = .ok () ↔
      ∀ u ∈ p.states_to_add, ¬ u ∈ st.states ∧
        (u.artificial = false → u.species = p.species)) ∧
    (let symRefl := if state.artificial then Parity.NA else p.sym_reflection
     let symRot := if state.artificial then [ARBm2] else p.sym_rotation
     let energy : ℚ := if state.artificial then 0 else cache.getEnergy state
     (¬ ARBm2 ∈ symRot ∧ ¬ state.m2 ∈ symRot →
        userStep cache p st state = .ok st) ∧
     ((ARBm2 ∈ symRot ∨ state.m2 ∈ symRot) →
       (symRefl ≠ Parity.NA ∧ state.m2 ≠ 0 ∧ ¬ state.getReflected ∈ p.states_to_add →
         userStep cache p st state =
           .error "The state required by symmetries cannot be found.") ∧
       (¬ (symRefl ≠ Parity.NA ∧ state.m2 ≠ 0 ∧ ¬ state.getReflected ∈ p.states_to_add) →
         userStep cache p st state =
           .ok (addSymmetrizedBasisvectors state energy symRefl st) ∧
         ((symRefl = Parity.NA ∨ 0 ≤ state.m2) →
           state ∈ (addSymmetrizedBasisvectors state energy symRefl st).states)))) := by
  refine ⟨userPrecheck_ok_iff p st, ?_, ?_⟩
  · intro hskip
    unfold userStep
    rw [if_pos hskip]
  · intro hrot
    have hrot' : ¬ (¬ ARBm2 ∈ (if state.artificial then [ARBm2] else p.sym_rotation) ∧
        ¬ state.m2 ∈ (if state.artificial then [ARBm2] else p.sym_rotation)) := by
      rcases hrot with h | h
      · exact fun hc => hc.1 h
      · exact fun hc => hc.2 h
    constructor
    · intro hmiss
      unfold userStep
      rw [if_neg hrot', if_pos hmiss]
    · intro hnomiss
      refine ⟨?_, fun hreg => mem_addSymmetrizedBasisvectors_self _ _ _ _ hreg⟩
      unfold userStep
      rw [if_neg hrot', if_neg hnomiss]

/-- The user-added state of the C8 counterexample: physical, of the right
species, but with `m = -1/2` while only `m = +1/2` is conserved. -/
def uC8 : StateOne := ⟨"X", 2, 0, 1, -1, false⟩

/-- The C8 counterexample configuration: one enumerated state
(`n=1, l=0, j=1/2, m=1/2`), conserved momenta `{1/2}`, and `uC8` as a
user-added state. -/
def pC8 : BasisParams where
  species := "X"
  range_n := [1]
  range_l := [0]
  range_j2 := [1]
  range_m2 := [1]
  energy_min := none
  energy_max := none
  states_to_add := [uC8]
  sym_reflection := Parity.NA
  sym_rotation := [1]

/-- C8 counterexample: none of the claim's failure conditions holds for
`uC8` (not yet registered, right species, reflection inactive), yet the
build succeeds WITHOUT registering it — its `m` is excluded by the
conserved-momenta set, so it is silently skipped, contradicting
"otherwise all user-added states are registered". -/
theorem initializeBasis_skips_filtered_user_state :
    initializeBasis cacheTriv pC8 =
      .ok ⟨[⟨"X", 1, 0, 1, 1, false⟩], 1, [(0, 0, 1)], [(0, 0, 0)]⟩ ∧
    uC8 ∈ pC8.states_to_add ∧
    uC8.artificial = false ∧ uC8.species = pC8.species ∧
    pC8.sym_reflection = Parity.NA ∧
    ¬ uC8 ∈ ([⟨"X", 1, 0, 1, 1, false⟩] : List StateOne) := by
  refine ⟨by decide, by decide, rfl, rfl, rfl, by decide⟩

/-- Witness for C8: the characterization applied to the counterexample
scenario — `uC8` is rotation-filtered, so its step is a silent no-op. -/
theorem userStates_processing_witness :
    userStep cacheTriv pC8
      ⟨[⟨"X", 1, 0, 1, 1, false⟩], 1, [(0, 0, 1)], [(0, 0, 0)]⟩ uC8 =
      .ok ⟨[⟨"X", 1, 0, 1, 1, false⟩], 1, [(0, 0, 1)], [(0, 0, 0)]⟩ :=
  (userStates_processing cacheTriv pC8
      ⟨[⟨"X", 1, 0, 1, 1, false⟩], 1, [(0, 0, 1)], [(0, 0, 0)]⟩ uC8).2.1 (by decide)

/-! ## C1 — adjoint relation between stored ±c components -/

/-- Lookup after writing the same key. -/
theorem alist.find?_set_self {κ : Type} [DecidableEq κ] {α : Type}
    (l : List (κ × α)) (k : κ) (v : α) :
    alist.find? (alist.set l k v) k = some v := by
  induction l with
  | nil => simp [alist.set, alist.find?]
  | cons p ps ih =>
    by_cases h : p.1 = k
    · simp [alist.set, alist.find?, h]
    · simp only [alist.set, if_neg h]
      unfold alist.find?
      rw [List.find?_cons_of_neg _ (by simpa using h)]
      exact ih

/-- Lookup after writing a different key. -/
theorem alist.find?_set_other {κ : Type} [DecidableEq κ] {α : Type}
    (l : List (κ × α)) (k q : κ) (v : α) (h : q ≠ k) :
    alist.find? (alist.set l k v) q = alist.find? l q := by
  induction l with
  | nil =>
    simp [alist.set, alist.find?, List.find?_cons_of_neg, h]
    intro hc
    exact absurd hc.symm h
  | cons p ps ih =>
    by_cases hp : p.1 = k
    · simp only [alist.set, if_pos hp]
      unfold alist.find?
      rw [List.find?_cons_of_neg _ (by simpa using (Ne.symm h)),
        List.find?_cons_of_neg _ (by simp [hp]; exact fun hc => absurd (hp ▸ hc) (Ne.symm h))]
    · simp only [alist.set, if_neg hp]
      unfold alist.find?
      by_cases hq : p.1 = q
      · rw [List.find?_cons_of_pos _ (by simpa using hq),
          List.find?_cons_of_pos _ (by simpa using hq)]
      · rw [List.find?_cons_of_neg _ (by simpa using hq),
          List.find?_cons_of_neg _ (by simpa using hq)]
        exact ih

/-- A key that no remaining build step writes is untouched by the
build-and-transform fold. -/
theorem storeFamily_find?_frozen {κ : Type} [DecidableEq κ] (N : Nat) (B : Mat)
    (emitted : List (κ × Trip)) (range : List κ)
    (isZero : κ → Bool) (negK : κ → κ) (phase : κ → KC) (acc : List (κ × Mat)) (q : κ)
    (hq : ∀ k ∈ range, k ≠ q ∧ (isZero k = false → negK k ≠ q)) :
    alist.find? (storeFamily N B emitted range isZero negK phase acc) q =
      alist.find? acc q := by
  induction range generalizing acc with
  | nil => rfl
  | cons r rest ih =>
    have hr := hq r (List.mem_cons_self r rest)
    unfold storeFamily
    simp only [List.foldl_cons]
    rw [show (rest.foldl _ _ : List (κ × Mat)) = storeFamily N B emitted rest isZero negK phase _ from rfl]
    by_cases hz : isZero r = true
    · rw [if_pos hz]
      rw [ih _ (fun k hk => hq k (List.mem_cons_of_mem _ hk))]
      exact alist.find?_set_other _ _ _ _ (fun hc => hr.1 hc.symm)
    · have hz' := Bool.eq_false_iff.mpr hz
      rw [if_neg hz]
      rw [ih _ (fun k hk => hq k (List.mem_cons_of_mem _ hk))]
      rw [alist.find?_set_other _ _ _ _ (fun hc => (hr.2 hz') hc.symm)]
      exact alist.find?_set_other _ _ _ _ (fun hc => hr.1 hc.symm)

/-- What the build-and-transform fold stores for each processed key: the
zero key holds the transform of the lower-triangular self-adjoint
expansion; a nonzero key `k` holds the transformed canonical matrix and
its negative holds `phase k` times that transform's adjoint. -/
theorem storeFamily_find? {κ : Type} [DecidableEq κ] (N : Nat) (B : Mat)
    (emitted : List (κ × Trip)) (range : List κ)
    (isZero : κ → Bool) (negK : κ → κ) (phase : κ → KC) (acc : List (κ × Mat))
    (hnodup : range.Nodup)
    (hfresh : ∀ k ∈ range, isZero k = false → ∀ k' ∈ range, negK k ≠ k')
    (hninj : ∀ k ∈ range, ∀ k' ∈ range, isZero k = false → isZero k' = false →
      negK k = negK k' → k = k') :
    ∀ k ∈ range,
      (isZero k = true →
        alist.find? (storeFamily N B emitted range isZero negK phase acc) k =
          some (basisTransform N B (selfadjointLowerM (ofTriplets (tripletsFor emitted k))))) ∧
      (isZero k = false →
        alist.find? (storeFamily N B emitted range isZero negK phase acc) k =
          some (basisTransform N B (ofTriplets (tripletsFor emitted k))) ∧
        alist.find? (storeFamily N B emitted range isZero negK phase acc) (negK k) =
          some (smulML (phase k) (adjointM (basisTransform N B (ofTriplets (tripletsFor emitted k)))))) := by
  induction range generalizing acc with
  | nil => intro k hk; cases hk
  | cons r rest ih =>
    intro k hk
    have hnd := List.nodup_cons.mp hnodup
    rcases List.mem_cons.mp hk with rfl | hk'
    · -- k is the head: its writes survive the rest of the fold
      have hfrozen : ∀ q : κ, (k ≠ q ∧ (isZero k = false → negK k ≠ q)) → True := fun _ _ => trivial
      constructor
      · intro hz
        unfold storeFamily
        simp only [List.foldl_cons]
        rw [if_pos hz]
        rw [show (rest.foldl _ _ : List (κ × Mat)) = storeFamily N B emitted rest isZero negK phase _ from rfl]
        rw [storeFamily_find?_frozen _ _ _ _ _ _ _ _ k ?fr]
        · exact alist.find?_set_self _ _ _
        case fr =>
          intro k' hk'
          refine ⟨fun hc => hnd.1 (hc ▸ hk'), fun hz' hc =>
            hfresh k' (List.mem_cons_of_mem _ hk') hz' k (List.mem_cons_self _ _) hc⟩
      · intro hz
        unfold storeFamily
        simp only [List.foldl_cons]
        rw [if_neg (by simp [hz])]
        rw [show (rest.foldl _ _ : List (κ × Mat)) = storeFamily N B emitted rest isZero negK phase _ from rfl]
        constructor
        · rw [storeFamily_find?_frozen _ _ _ _ _ _ _ _ k ?fr1]
          · rw [alist.find?_set_other _ _ _ _ (fun hc =>
              hfresh k (List.mem_cons_self _ _) hz k (List.mem_cons_self _ _) hc.symm)]
            exact alist.find?_set_self _ _ _
          case fr1 =>
            intro k' hk'
            refine ⟨fun hc => hnd.1 (hc ▸ hk'), fun hz' hc =>
              hfresh k' (List.mem_cons_of_mem _ hk') hz' k (List.mem_cons_self _ _) hc⟩
        · rw [storeFamily_find?_frozen _ _ _ _ _ _ _ _ (negK k) ?fr2]
          · exact alist.find?_set_self _ _ _
          case fr2 =>
            intro k' hk'
            refine ⟨fun hc =>
              hfresh k (List.mem_cons_self _ _) hz k' (List.mem_cons_of_mem _ hk') hc.symm,
              fun hz' hc => ?_⟩
            have := hninj k' (List.mem_cons_of_mem _ hk') k (List.mem_cons_self _ _) hz' hz hc
            exact hnd.1 (this ▸ hk')
    · -- k is processed later: recurse with the grown accumulator
      have hstep := fun acc2 => ih acc2 hnd.2
        (fun a ha hza b hb =>
          hfresh a (List.mem_cons_of_mem _ ha) hza b (List.mem_cons_of_mem _ hb))
        (fun a ha b hb hza hzb =>
          hninj a (List.mem_cons_of_mem _ ha) b (List.mem_cons_of_mem _ hb) hza hzb)
      unfold storeFamily
      simp only [List.foldl_cons]
      by_cases hz : isZero r = true
      · rw [if_pos hz]
        exact hstep _ k hk'
      · rw [if_neg hz]
        exact hstep _ k hk'

/-- Keys of an updated association list come from the old keys or the
written key. -/
theorem alist.mem_keys_set {κ : Type} [DecidableEq κ] {α : Type}
    (l : List (κ × α)) (k q : κ) (v : α)
    (h : q ∈ (alist.set l k v).map (fun p => p.1)) :
    q ∈ l.map (fun p => p.1) ∨ q = k := by
  induction l with
  | nil =>
    simp [alist.set] at h
    exact Or.inr h
  | cons p ps ih =>
    by_cases hp : p.1 = k
    · simp only [alist.set, if_pos hp, List.map_cons, List.mem_cons] at h
      rcases h with h | h
      · exact Or.inr h
      · exact Or.inl (by simp [h])
    · simp only [alist.set, if_neg hp, List.map_cons, List.mem_cons] at h
      rcases h with h | h
      · exact Or.inl (by simp [h])
      · rcases ih h with h' | h'
        · exact Or.inl (List.mem_cons_of_mem _ h')
        · exact Or.inr h'

/-- `map::operator[] = v` keeps the keys of the map pairwise distinct. -/
theorem alist.set_keys_nodup {κ : Type} [DecidableEq κ] {α : Type}
    (l : List (κ × α)) (k : κ) (v : α)
    (h : (l.map (fun p => p.1)).Nodup) :
    ((alist.set l k v).map (fun p => p.1)).Nodup := by
  induction l with
  | nil => simp [alist.set]
  | cons p ps ih =>
    simp only [List.map_cons, List.nodup_cons] at h
    by_cases hp : p.1 = k
    · simp only [alist.set, if_pos hp, List.map_cons, List.nodup_cons]
      exact ⟨by rw [← hp]; exact h.1, h.2⟩
    · simp only [alist.set, if_neg hp, List.map_cons, List.nodup_cons]
      refine ⟨fun hc => ?_, ih h.2⟩
      rcases alist.mem_keys_set ps k p.1 v hc with h' | h'
      · exact h.1 h'
      · exact hp h'

/-- The build-and-transform fold keeps the cache's keys pairwise
distinct (each component is stored only once). -/
theorem storeFamily_keys_nodup {κ : Type} [DecidableEq κ] (N : Nat) (B : Mat)
    (emitted : List (κ × Trip)) (range : List κ)
    (isZero : κ → Bool) (negK : κ → κ) (phase : κ → KC) (acc : List (κ × Mat))
    (h : (acc.map (fun p => p.1)).Nodup) :
    ((storeFamily N B emitted range isZero negK phase acc).map (fun p => p.1)).Nodup := by
  induction range generalizing acc with
  | nil => exact h
  | cons r rest ih =>
    unfold storeFamily
    simp only [List.foldl_cons]
    by_cases hz : isZero r = true
    · rw [if_pos hz]
      exact ih _ (alist.set_keys_nodup _ _ _ h)
    · rw [if_neg hz]
      exact ih _ (alist.set_keys_nodup _ _ _ (alist.set_keys_nodup _ _ _ h))

/-- If every per-pair emission at key `k` is lower-triangular, so is the
canonical triplet list assembled for `k`. -/
theorem tripletsFor_lower {κ : Type} [DecidableEq κ] (states : List StateOne)
    (f : Nat × StateOne → Nat × StateOne → List (κ × Trip)) (k : κ)
    (hf : ∀ r c : Nat × StateOne, ∀ t : Trip, (k, t) ∈ f r c → t.2.1 ≤ t.1) :
    ∀ t ∈ tripletsFor (doubleLoop states f) k, t.2.1 ≤ t.1 := by
  intro t ht
  unfold tripletsFor at ht
  simp only [List.mem_map, List.mem_filter] at ht
  obtain ⟨⟨q, t'⟩, ⟨hmem, hq⟩, rfl⟩ := ht
  have hqk : q = k := by simpa using hq
  subst hqk
  obtain ⟨cp, -, rp, -, -, -, hx⟩ := (mem_doubleLoop states f _).mp hmem
  exact hf rp cp t' hx

/-- Triplets emitted for the zero component of the E-field family lie on
or below the diagonal. -/
theorem pairTripletsE_zero_lower (cache : ExtCache) (erange : List Int)
    (r c : Nat × StateOne) (t : Trip)
    (h : ((0 : Int), t) ∈ pairTripletsE cache erange r c) : t.2.1 ≤ t.1 := by
  unfold pairTripletsE at h
  cases hfind : erange.find? (fun i =>
      ¬ (i = 0 ∧ r.1 < c.1) ∧ cache.selectionRulesMultipoleNew r.2 c.2 1 i) with
  | none => rw [hfind] at h; cases h
  | some i =>
    rw [hfind] at h
    simp only [List.mem_singleton, Prod.mk.injEq] at h
    obtain ⟨hi, rfl⟩ := h
    have hp := List.find?_some hfind
    simp only [Bool.and_eq_true, decide_eq_true_eq] at hp
    have hlt := hp.1
    rw [← hi] at hlt
    simp only [true_and] at hlt
    show c.1 ≤ r.1
    omega

/-- Triplets emitted for the zero component of the B-field family lie on
or below the diagonal. -/
theorem pairTripletsB_zero_lower (cache : ExtCache) (brange : List Int)
    (r c : Nat × StateOne) (t : Trip)
    (h : ((0 : Int), t) ∈ pairTripletsB cache brange r c) : t.2.1 ≤ t.1 := by
  unfold pairTripletsB at h
  cases hfind : brange.find? (fun i =>
      ¬ (i = 0 ∧ r.1 < c.1) ∧ cache.selectionRulesMomentumNew r.2 c.2 i) with
  | none => rw [hfind] at h; cases h
  | some i =>
    rw [hfind] at h
    simp only [List.mem_singleton, Prod.mk.injEq] at h
    obtain ⟨hi, rfl⟩ := h
    have hp := List.find?_some hfind
    simp only [Bool.and_eq_true, decide_eq_true_eq] at hp
    have hlt := hp.1
    rw [← hi] at hlt
    simp only [true_and] at hlt
    show c.1 ≤ r.1
    omega

/-- Triplets emitted for a zero-component key of the diamagnetic family
lie on or below the diagonal. -/
theorem pairTripletsD_zero_lower (cache : ExtCache) (drange : List (Int × Int))
    (rank : Int) (r c : Nat × StateOne) (t : Trip)
    (h : ((rank, (0 : Int)), t) ∈ pairTripletsD cache drange r c) : t.2.1 ≤ t.1 := by
  unfold pairTripletsD at h
  simp only [List.mem_map, List.mem_filter, Bool.and_eq_true, decide_eq_true_eq,
    Prod.mk.injEq] at h
  obtain ⟨i, ⟨-, hskip, -⟩, hik, rfl, rfl⟩ := h
  subst hik
  simp only [true_and] at hskip
  show c.1 ≤ r.1
  omega

/-- Components selected for the E-field build are nonnegative. -/
theorem erangeOf_nonneg (s : SysOne) : ∀ i ∈ erangeOf s, 0 ≤ i := by
  intro i hi
  unfold erangeOf at hi
  simp only [List.mem_map, List.mem_filter, Bool.and_eq_true, decide_eq_true_eq] at hi
  obtain ⟨e, ⟨-, hcond, -⟩, rfl⟩ := hi
  omega

/-- Components selected for the B-field build are nonnegative. -/
theorem brangeOf_nonneg (s : SysOne) : ∀ i ∈ brangeOf s, 0 ≤ i := by
  intro i hi
  unfold brangeOf at hi
  simp only [List.mem_map, List.mem_filter, Bool.and_eq_true, decide_eq_true_eq] at hi
  obtain ⟨e, ⟨-, hcond, -⟩, rfl⟩ := hi
  omega

/-- Keys selected for the diamagnetic build have nonnegative component. -/
theorem drangeOf_nonneg (s : SysOne) : ∀ k ∈ drangeOf s, 0 ≤ k.2 := by
  intro k hk
  unfold drangeOf at hk
  simp only [List.mem_map, List.mem_filter, Bool.and_eq_true, decide_eq_true_eq] at hk
  obtain ⟨e, ⟨-, hcond, -⟩, rfl⟩ := hk
  omega

/-- Orders selected for the multipole build are positive. -/
theorem orangeOf_pos (s : SysOne) : ∀ i ∈ orangeOf s, 1 ≤ i := by
  intro i hi
  unfold orangeOf at hi
  by_cases hc : s.charge ≠ 0
  · rw [if_pos hc] at hi
    simp only [List.mem_filter, List.mem_map, List.mem_range] at hi
    obtain ⟨⟨k, hk, hki⟩, -⟩ := hi
    omega
  · rw [if_neg hc] at hi
    cases hi

/-- A range obtained by filtering and projecting a nodup-keyed map has no
duplicates. -/
theorem mapFilter_keys_nodup {α : Type} (l : List (Int × α)) (P : Int × α → Bool)
    (h : (l.map (fun p => p.1)).Nodup) : ((l.filter P).map (fun p => p.1)).Nodup :=
  h.sublist (List.Sublist.map _ (List.filter_sublist l))

/-- Same statement for pair-keyed maps. -/
theorem mapFilter_keys_nodup2 {α : Type} (l : List ((Int × Int) × α)) (P : (Int × Int) × α → Bool)
    (h : (l.map (fun p => p.1)).Nodup) : ((l.filter P).map (fun p => p.1)).Nodup :=
  h.sublist (List.Sublist.map _ (List.filter_sublist l))

/-- The E-field build range is duplicate-free when the spherical map is. -/
theorem erangeOf_nodup (s : SysOne)
    (h : (s.efield_spherical.map (fun p => p.1)).Nodup) : (erangeOf s).Nodup :=
  mapFilter_keys_nodup _ _ h

/-- The B-field build range is duplicate-free when the spherical map is. -/
theorem brangeOf_nodup (s : SysOne)
    (h : (s.bfield_spherical.map (fun p => p.1)).Nodup) : (brangeOf s).Nodup :=
  mapFilter_keys_nodup _ _ h

/-- The diamagnetic build range is duplicate-free when the coefficient map
is. -/
theorem drangeOf_nodup (s : SysOne)
    (h : (s.diamagnetism_terms.map (fun p => p.1)).Nodup) : (drangeOf s).Nodup :=
  mapFilter_keys_nodup2 _ _ h

/-- The multipole build range is duplicate-free. -/
theorem orangeOf_nodup (s : SysOne) : (orangeOf s).Nodup := by
  unfold orangeOf
  by_cases hc : s.charge ≠ 0
  · rw [if_pos hc]
    refine (List.Nodup.map ?_ (List.nodup_range _)).filter _
    intro a b hab
    simp only [] at hab
    omega
  · rw [if_neg hc]
    exact List.nodup_nil

/-- `initializeInteraction` unfolded to its two branches. -/
theorem initializeInteraction_eq (cache : ExtCache) (s : SysOne) :
    initializeInteraction cache s =
      if (erangeOf s).isEmpty ∧ (brangeOf s).isEmpty ∧ (drangeOf s).isEmpty ∧
          (orangeOf s).isEmpty
      then s
      else
        { s with
          interaction_efield :=
            storeFamily s.states.length s.basisvectors
              (doubleLoop s.states (pairTripletsE cache (erangeOf s))) (erangeOf s)
              (fun i => i = 0) (fun i => -i) (fun i => KC.phasePow i) s.interaction_efield
          interaction_bfield :=
            storeFamily s.states.length s.basisvectors
              (doubleLoop s.states (pairTripletsB cache (brangeOf s))) (brangeOf s)
              (fun i => i = 0) (fun i => -i) (fun i => KC.phasePow i) s.interaction_bfield
          interaction_diamagnetism :=
            storeFamily s.states.length s.basisvectors
              (doubleLoop s.states (pairTripletsD cache (drangeOf s))) (drangeOf s)
              (fun i => i.2 = 0) (fun i => (i.1, -i.2)) (fun i => KC.phasePow i.2)
              s.interaction_diamagnetism
          interaction_multipole :=
            if s.charge ≠ 0 then
              storeFamily s.states.length s.basisvectors
                (doubleLoop s.states (pairTripletsO cache (orangeOf s) s.charge)) (orangeOf s)
                (fun i => i = 0) (fun i => -i) (fun i => KC.phasePow i) s.interaction_multipole
            else s.interaction_multipole } := rfl

/-- Freshness of the written key pairs for an integer-component family
whose build range is nonnegative. -/
theorem intFamily_fresh (range : List Int) (hpos : ∀ i ∈ range, 0 ≤ i) :
    (∀ k ∈ range, (decide (k = 0) : Bool) = false → ∀ k' ∈ range, -k ≠ k') ∧
    (∀ k ∈ range, ∀ k' ∈ range, (decide (k = 0) : Bool) = false →
      (decide (k' = 0) : Bool) = false → -k = -k' → k = k') := by
  constructor
  · intro k hk hz k' hk'
    have h1 := hpos k hk
    have h2 := hpos k' hk'
    have h0 : k ≠ 0 := by simpa using hz
    omega
  · intro k _ k' _ _ _ h
    omega

/-- Freshness of the written key pairs for the diamagnetic family. -/
theorem pairFamily_fresh (range : List (Int × Int)) (hpos : ∀ k ∈ range, 0 ≤ k.2) :
    (∀ k ∈ range, (decide (k.2 = 0) : Bool) = false → ∀ k' ∈ range, (k.1, -k.2) ≠ k') ∧
    (∀ k ∈ range, ∀ k' ∈ range, (decide (k.2 = 0) : Bool) = false →
      (decide (k'.2 = 0) : Bool) = false → (k.1, -k.2) = (k'.1, -k'.2) → k = k') := by
  constructor
  · intro k hk hz k' hk' hc
    have h1 := hpos k hk
    have h2 := hpos k' hk'
    have h0 : k.2 ≠ 0 := by simpa using hz
    have := congrArg (fun p : Int × Int => p.2) hc
    simp only [] at this
    omega
  · intro k _ k' _ _ _ h
    have h1 := congrArg (fun p : Int × Int => p.1) h
    have h2 := congrArg (fun p : Int × Int => p.2) h
    simp only [] at h1 h2
    exact Prod.ext h1 (by omega)

/-- C1 (amended): after `initializeInteraction` on a system with empty
operator caches, in every family (E-field, B-field, diamagnetic, ion
multipole) each stored nonzero-component operator satisfies
`M(−c) = (−1)^c · adjoint(M(c))` — the phase exponent is the spherical
component `c`, which coincides with the operator rank for the dipole
families but not for the rank-2 diamagnetic `c = ±1` terms; the `c = 0`
component is stored only once (the cache keys stay pairwise distinct), is
assembled from a lower-triangular canonical fill, and is stored already
expanded through its self-adjoint view and transformed. -/
theorem initializeInteraction_adjoint_phase (cache : ExtCache) (s : SysOne)
    (he : s.interaction_efield = []) (hb : s.interaction_bfield = [])
    (hd : s.interaction_diamagnetism = []) (hm : s.interaction_multipole = [])
    (hek : (s.efield_spherical.map (fun p => p.1)).Nodup)
    (hbk : (s.bfield_spherical.map (fun p => p.1)).Nodup)
    (hdk : (s.diamagnetism_terms.map (fun p => p.1)).Nodup) :
    (∀ i ∈ erangeOf s, i ≠ 0 →
      ∃ T, alist.find? (initializeInteraction cache s).interaction_efield i = some T ∧
        alist.find? (initializeInteraction cache s).interaction_efield (-i) =
          some (smulML (KC.phasePow i) (adjointM T))) ∧
    (0 ∈ erangeOf s →
      alist.find? (initializeInteraction cache s).interaction_efield 0 =
        some (basisTransform s.states.length s.basisvectors (selfadjointLowerM
          (ofTriplets
            (tripletsFor (doubleLoop s.states (pairTripletsE cache (erangeOf s))) 0))))) ∧
    ((initializeInteraction cache s).interaction_efield.map (fun p => p.1)).Nodup ∧
    (∀ t ∈ tripletsFor (doubleLoop s.states (pairTripletsE cache (erangeOf s))) 0,
      t.2.1 ≤ t.1) ∧
    (∀ i ∈ brangeOf s, i ≠ 0 →
      ∃ T, alist.find? (initializeInteraction cache s).interaction_bfield i = some T ∧
        alist.find? (initializeInteraction cache s).interaction_bfield (-i) =
          some (smulML (KC.phasePow i) (adjointM T))) ∧
    (0 ∈ brangeOf s →
      alist.find? (initializeInteraction cache s).interaction_bfield 0 =
        some (basisTransform s.states.length s.basisvectors (selfadjointLowerM
          (ofTriplets
            (tripletsFor (doubleLoop s.states (pairTripletsB cache (brangeOf s))) 0))))) ∧
    ((initializeInteraction cache s).interaction_bfield.map (fun p => p.1)).Nodup ∧
    (∀ t ∈ tripletsFor (doubleLoop s.states (pairTripletsB cache (brangeOf s))) 0,
      t.2.1 ≤ t.1) ∧
    (∀ k ∈ drangeOf s, k.2 ≠ 0 →
      ∃ T, alist.find? (initializeInteraction cache s).interaction_diamagnetism k = some T ∧
        alist.find? (initializeInteraction cache s).interaction_diamagnetism (k.1, -k.2) =
          some (smulML (KC.phasePow k.2) (adjointM T))) ∧
    (∀ k ∈ drangeOf s, k.2 = 0 →
      alist.find? (initializeInteraction cache s).interaction_diamagnetism k =
        some (basisTransform s.states.length s.basisvectors (selfadjointLowerM
          (ofTriplets
            (tripletsFor (doubleLoop s.states (pairTripletsD cache (drangeOf s))) k))))) ∧
    ((initializeInteraction cache s).interaction_diamagnetism.map (fun p => p.1)).Nodup ∧
    (∀ rank : Int,
      ∀ t ∈ tripletsFor (doubleLoop s.states (pairTripletsD cache (drangeOf s))) (rank, 0),
        t.2.1 ≤ t.1) ∧
    (∀ i ∈ orangeOf s,
      ∃ T, alist.find? (initializeInteraction cache s).interaction_multipole i = some T ∧
        alist.find? (initializeInteraction cache s).interaction_multipole (-i) =
          some (smulML (KC.phasePow i) (adjointM T))) ∧
    ((initializeInteraction cache s).interaction_multipole.map (fun p => p.1)).Nodup := by
  have hlowE : ∀ t ∈ tripletsFor (doubleLoop s.states (pairTripletsE cache (erangeOf s))) 0,
      t.2.1 ≤ t.1 :=
    tripletsFor_lower s.states _ 0 (fun r c t ht => pairTripletsE_zero_lower cache _ r c t ht)
  have hlowB : ∀ t ∈ tripletsFor (doubleLoop s.states (pairTripletsB cache (brangeOf s))) 0,
      t.2.1 ≤ t.1 :=
    tripletsFor_lower s.states _ 0 (fun r c t ht => pairTripletsB_zero_lower cache _ r c t ht)
  have hlowD : ∀ rank : Int,
      ∀ t ∈ tripletsFor (doubleLoop s.states (pairTripletsD cache (drangeOf s))) (rank, 0),
        t.2.1 ≤ t.1 :=
    fun rank => tripletsFor_lower s.states _ (rank, 0)
      (fun r c t ht => pairTripletsD_zero_lower cache _ rank r c t ht)
  rw [initializeInteraction_eq]
  by_cases hvoid : (erangeOf s).isEmpty ∧ (brangeOf s).isEmpty ∧ (drangeOf s).isEmpty ∧
      (orangeOf s).isEmpty
  · rw [if_pos hvoid]
    obtain ⟨h1, h2, h3, h4⟩ := hvoid
    rw [List.isEmpty_iff] at h1 h2 h3 h4
    refine ⟨?_, ?_, ?_, hlowE, ?_, ?_, ?_, hlowB, ?_, ?_, ?_, hlowD, ?_, ?_⟩
    · intro i hi; rw [h1] at hi; cases hi
    · intro h0; rw [h1] at h0; cases h0
    · rw [he]; exact List.nodup_nil
    · intro i hi; rw [h2] at hi; cases hi
    · intro h0; rw [h2] at h0; cases h0
    · rw [hb]; exact List.nodup_nil
    · intro k hk; rw [h3] at hk; cases hk
    · intro k hk; rw [h3] at hk; cases hk
    · rw [hd]; exact List.nodup_nil
    · intro i hi; rw [h4] at hi; cases hi
    · rw [hm]; exact List.nodup_nil
  · rw [if_neg hvoid]
    have freshE := intFamily_fresh (erangeOf s) (erangeOf_nonneg s)
    have freshB := intFamily_fresh (brangeOf s) (brangeOf_nonneg s)
    have freshD := pairFamily_fresh (drangeOf s) (drangeOf_nonneg s)
    have freshO := intFamily_fresh (orangeOf s) (fun i hi => le_trans (by omega) (orangeOf_pos s i hi))
    have mainE := storeFamily_find? s.states.length s.basisvectors
      (doubleLoop s.states (pairTripletsE cache (erangeOf s))) (erangeOf s)
      (fun i => i = 0) (fun i => -i) (fun i => KC.phasePow i) s.interaction_efield
      (erangeOf_nodup s hek) freshE.1 freshE.2
    have mainB := storeFamily_find? s.states.length s.basisvectors
      (doubleLoop s.states (pairTripletsB cache (brangeOf s))) (brangeOf s)
      (fun i => i = 0) (fun i => -i) (fun i => KC.phasePow i) s.interaction_bfield
      (brangeOf_nodup s hbk) freshB.1 freshB.2
    have mainD := storeFamily_find? s.states.length s.basisvectors
      (doubleLoop s.states (pairTripletsD cache (drangeOf s))) (drangeOf s)
      (fun i => i.2 = 0) (fun i => (i.1, -i.2)) (fun i => KC.phasePow i.2)
      s.interaction_diamagnetism (drangeOf_nodup s hdk) freshD.1 freshD.2
    refine ⟨?_, ?_, ?_, hlowE, ?_, ?_, ?_, hlowB, ?_, ?_, ?_, hlowD, ?_, ?_⟩
    · intro i hi hi0
      have hres := (mainE i hi).2 (by simp [hi0])
      exact ⟨_, hres.1, hres.2⟩
    · intro h0
      exact (mainE 0 h0).1 (by simp)
    · exact storeFamily_keys_nodup _ _ _ _ _ _ _ _ (by rw [he]; exact List.nodup_nil)
    · intro i hi hi0
      have hres := (mainB i hi).2 (by simp [hi0])
      exact ⟨_, hres.1, hres.2⟩
    · intro h0
      exact (mainB 0 h0).1 (by simp)
    · exact storeFamily_keys_nodup _ _ _ _ _ _ _ _ (by rw [hb]; exact List.nodup_nil)
    · intro k hk hk0
      have hres := (mainD k hk).2 (by simp [hk0])
      exact ⟨_, hres.1, hres.2⟩
    · intro k hk hk0
      exact (mainD k hk).1 (by simp [hk0])
    · exact storeFamily_keys_nodup _ _ _ _ _ _ _ _ (by rw [hd]; exact List.nodup_nil)
    · intro i hi
      have hi0 : i ≠ 0 := by have := orangeOf_pos s i hi; omega
      by_cases hc : s.charge ≠ 0
      · rw [if_pos hc]
        have mainO := storeFamily_find? s.states.length s.basisvectors
          (doubleLoop s.states (pairTripletsO cache (orangeOf s) s.charge)) (orangeOf s)
          (fun i => i = 0) (fun i => -i) (fun i => KC.phasePow i) s.interaction_multipole
          (orangeOf_nodup s) freshO.1 freshO.2
        have hres := (mainO i hi).2 (by simp [hi0])
        exact ⟨_, hres.1, hres.2⟩
      · exfalso
        unfold orangeOf at hi
        rw [if_neg hc] at hi
        cases hi
    · by_cases hc : s.charge ≠ 0
      · rw [if_pos hc]
        exact storeFamily_keys_nodup _ _ _ _ _ _ _ _ (by rw [hm]; exact List.nodup_nil)
      · rw [if_neg hc, hm]
        exact List.nodup_nil

/-- Two physical reflection-partner states for the C1 scenario. -/
def stC1a : StateOne := ⟨"Y", 3, 1, 3, 1, false⟩

/-- The reflected partner of `stC1a`. -/
def stC1b : StateOne := ⟨"Y", 3, 1, 3, -1, false⟩

/-- The C1 scenario: two physical states, identity basis-change matrix,
and a single large rank-2 component-1 diamagnetic coefficient. -/
def sysC1 : SysOne :=
  { mkSystemOne "Y" with
    states := [stC1a, stC1b]
    basisvectors := ofTriplets [(0, 0, 1), (1, 1, 1)]
    diamagnetism_terms := [((2, 1), 1)] }

/-- C1 counterexample: for the rank-2 diamagnetic family the stored
component `(2,−1)` is `(−1)^c = −1` times the adjoint of the stored
`(2,+1)` — NOT `(−1)^rank = +1` times it as the claim states: the two
matrices differ at entry (0,0). -/
theorem initializeInteraction_diamag_phase_counterexample :
    ((2, 1) : Int × Int) ∈ drangeOf sysC1 ∧
    (cacheGetM (initializeInteraction cacheTriv sysC1).interaction_diamagnetism (2, -1)) 0 0 =
      KC.neg 1 ∧
    (adjointM (cacheGetM (initializeInteraction cacheTriv sysC1).interaction_diamagnetism
      (2, 1))) 0 0 = 1 ∧
    cacheGetM (initializeInteraction cacheTriv sysC1).interaction_diamagnetism (2, -1) ≠
      adjointM (cacheGetM (initializeInteraction cacheTriv sysC1).interaction_diamagnetism
        (2, 1)) := by
  refine ⟨by decide, by decide, by decide, ?_⟩
  intro h
  have h00 := congrFun (congrFun h 0) 0
  revert h00
  decide

/-- Witness for C1: the adjoint-phase relation instantiated on the
concrete diamagnetic build of `sysC1` at component `(2, 1)`. -/
theorem initializeInteraction_adjoint_phase_witness :
    ∃ T, alist.find? (initializeInteraction cacheTriv sysC1).interaction_diamagnetism
        ((2 : Int), (1 : Int)) = some T ∧
      alist.find? (initializeInteraction cacheTriv sysC1).interaction_diamagnetism
        ((2 : Int), (-1 : Int)) = some (smulML (KC.phasePow 1) (adjointM T)) :=
  ((initializeInteraction_adjoint_phase cacheTriv sysC1 rfl rfl rfl rfl
    (by decide) (by decide) (by decide)).2.2.2.2.2.2.2.2.1) (2, 1) (by decide) (by decide)

/-! ## C2 — uniqueness of registered states and basis-change column shape -/

/-- A well-formed already-written column `c`: its triplets are either a
single entry with a valid row and nonzero value, or exactly two entries
with distinct valid rows whose row states are reflection partners and
whose values both have squared magnitude `1/2`. -/
def ColOk (st : BuildSt) (c : Nat) : Prop :=
  (∃ r v, st.bvTriplets.filter (fun t => t.2.1 = c) = [(r, c, v)] ∧
    r < st.states.length ∧ v ≠ 0) ∨
  (∃ r1 r2 v1 v2, st.bvTriplets.filter (fun t => t.2.1 = c) = [(r1, c, v1), (r2, c, v2)] ∧
    r1 < st.states.length ∧ r2 < st.states.length ∧ r1 ≠ r2 ∧
    st.states[r2]? = (st.states[r1]?).map StateOne.getReflected ∧
    KC.normSq v1 = Q4.ofRat (1 / 2) ∧ KC.normSq v2 = Q4.ofRat (1 / 2) ∧
    v1 ≠ 0 ∧ v2 ≠ 0)

/-- The build invariant: no duplicate registered states, every written
column is well formed, and all written triplets sit in columns below the
column counter. -/
def BuildInv (st : BuildSt) : Prop :=
  st.states.Nodup ∧ (∀ c < st.idx, ColOk st c) ∧ ∀ t ∈ st.bvTriplets, t.2.1 < st.idx

/-- What `addBasisvectors` does: it yields a row index holding the given
state, appends exactly one triplet at that row, extends the registry by at
most the given state, preserves freedom from duplicates and existing
lookups, and leaves the column counter and energies alone. -/
theorem addBasisvectors_spec (state : StateOne) (idx : Nat) (v : KC) (st : BuildSt) :
    ∃ row,
      (addBasisvectors state idx v st).states[row]? = some state ∧
      (addBasisvectors state idx v st).bvTriplets = st.bvTriplets ++ [(row, idx, v)] ∧
      ((addBasisvectors state idx v st).states = st.states ∨
        (addBasisvectors state idx v st).states = st.states ++ [state]) ∧
      (st.states.Nodup → (addBasisvectors state idx v st).states.Nodup) ∧
      (∀ i, i < st.states.length →
        (addBasisvectors state idx v st).states[i]? = st.states[i]?) ∧
      (addBasisvectors state idx v st).idx = st.idx ∧
      (addBasisvectors state idx v st).hTriplets = st.hTriplets ∧
      row < (addBasisvectors state idx v st).states.length ∧
      st.states.length ≤ (addBasisvectors state idx v st).states.length := by
  unfold addBasisvectors
  cases hf : st.states.findIdx? (fun s => s = state) with
  | some row =>
    obtain ⟨hlt, hp, -⟩ := List.findIdx?_eq_some_iff_getElem.mp hf
    have hrow : st.states[row] = state := by simpa using hp
    refine ⟨row, ?_, rfl, Or.inl rfl, fun h => h, fun i _ => rfl, rfl, rfl, hlt, le_refl _⟩
    rw [List.getElem?_eq_getElem hlt, hrow]
  | none =>
    have hnotmem : ¬ state ∈ st.states := by
      intro hmem
      have := List.findIdx?_eq_none_iff.mp hf state hmem
      simp at this
    refine ⟨st.states.length, ?_, rfl, Or.inr rfl, ?_, ?_, rfl, rfl, ?_, ?_⟩
    · rw [List.getElem?_append_right (le_refl _)]
      simp
    · intro h
      rw [List.nodup_append]
      refine ⟨h, List.nodup_singleton _, ?_⟩
      intro a ha hb
      simp only [List.mem_singleton] at hb
      exact hnotmem (hb ▸ ha)
    · intro i hi
      exact List.getElem?_append_left hi
    · simp
    · simp

/-- A well-formed column stays well formed when the registry grows (the
old lookups unchanged) and the column's triplets are unchanged. -/
theorem colOk_mono (st st' : BuildSt) (c : Nat)
    (hlen : st.states.length ≤ st'.states.length)
    (hpres : ∀ i, i < st.states.length → st'.states[i]? = st.states[i]?)
    (hfilter : st'.bvTriplets.filter (fun t => t.2.1 = c) =
      st.bvTriplets.filter (fun t => t.2.1 = c))
    (h : ColOk st c) : ColOk st' c := by
  rcases h with ⟨r, v, hf, hr, hv⟩ | ⟨r1, r2, v1, v2, hf, hr1, hr2, hne, hrefl, hn1, hn2, hv1, hv2⟩
  · exact Or.inl ⟨r, v, by rw [hfilter, hf], lt_of_lt_of_le hr hlen, hv⟩
  · refine Or.inr ⟨r1, r2, v1, v2, by rw [hfilter, hf],
      lt_of_lt_of_le hr1 hlen, lt_of_lt_of_le hr2 hlen, hne, ?_, hn1, hn2, hv1, hv2⟩
    rw [hpres r2 hr2, hpres r1 hr1]
    exact hrefl

/-- Writing one fresh single-entry column preserves the invariant. -/
theorem buildInv_extend1 (st st' : BuildSt) (r1 : Nat) (v1 : KC)
    (h : BuildInv st)
    (hnodup : st'.states.Nodup)
    (hlen : st.states.length ≤ st'.states.length)
    (hpres : ∀ i, i < st.states.length → st'.states[i]? = st.states[i]?)
    (hbv : st'.bvTriplets = st.bvTriplets ++ [(r1, st.idx, v1)])
    (hidx : st'.idx = st.idx + 1)
    (hr1 : r1 < st'.states.length)
    (hv1 : v1 ≠ 0) : BuildInv st' := by
  obtain ⟨hnd, hcols, hbelow⟩ := h
  have hfilter_old : ∀ c, c < st.idx →
      st'.bvTriplets.filter (fun t => t.2.1 = c) =
        st.bvTriplets.filter (fun t => t.2.1 = c) := by
    intro c hc
    rw [hbv, List.filter_append]
    have : List.filter (fun t : Trip => t.2.1 = c) [(r1, st.idx, v1)] = [] := by
      simp
      omega
    rw [this, List.append_nil]
  have hfilter_new :
      st'.bvTriplets.filter (fun t => t.2.1 = st.idx) = [(r1, st.idx, v1)] := by
    rw [hbv, List.filter_append]
    have h1 : List.filter (fun t : Trip => t.2.1 = st.idx) st.bvTriplets = [] := by
      rw [List.filter_eq_nil_iff]
      intro t ht
      have := hbelow t ht
      simp
      omega
    have h2 : List.filter (fun t : Trip => t.2.1 = st.idx) [(r1, st.idx, v1)] =
        [(r1, st.idx, v1)] := by simp
    rw [h1, h2, List.nil_append]
  refine ⟨hnodup, ?_, ?_⟩
  · intro c hc
    rw [hidx] at hc
    rcases Nat.lt_succ_iff_lt_or_eq.mp hc with hc' | rfl
    · exact colOk_mono st st' c hlen hpres (hfilter_old c hc') (hcols c hc')
    · exact Or.inl ⟨r1, v1, hfilter_new, hr1, hv1⟩
  · intro t ht
    rw [hbv] at ht
    rw [hidx]
    rcases List.mem_append.mp ht with ht' | ht'
    · have := hbelow t ht'
      omega
    · simp only [List.mem_singleton] at ht'
      subst ht'
      show st.idx < st.idx + 1
      omega

/-- Writing one fresh reflection-symmetrized two-entry column preserves
the invariant. -/
theorem buildInv_extend2 (st st' : BuildSt) (r1 r2 : Nat) (v1 v2 : KC)
    (h : BuildInv st)
    (hnodup : st'.states.Nodup)
    (hlen : st.states.length ≤ st'.states.length)
    (hpres : ∀ i, i < st.states.length → st'.states[i]? = st.states[i]?)
    (hbv : st'.bvTriplets = st.bvTriplets ++ [(r1, st.idx, v1), (r2, st.idx, v2)])
    (hidx : st'.idx = st.idx + 1)
    (hr1 : r1 < st'.states.length) (hr2 : r2 < st'.states.length) (hne : r1 ≠ r2)
    (hrefl : st'.states[r2]? = (st'.states[r1]?).map StateOne.getReflected)
    (hn1 : KC.normSq v1 = Q4.ofRat (1 / 2)) (hn2 : KC.normSq v2 = Q4.ofRat (1 / 2))
    (hv1 : v1 ≠ 0) (hv2 : v2 ≠ 0) : BuildInv st' := by
  obtain ⟨hnd, hcols, hbelow⟩ := h
  have hfilter_old : ∀ c, c < st.idx →
      st'.bvTriplets.filter (fun t => t.2.1 = c) =
        st.bvTriplets.filter (fun t => t.2.1 = c) := by
    intro c hc
    rw [hbv, List.filter_append]
    have : List.filter (fun t : Trip => t.2.1 = c) [(r1, st.idx, v1), (r2, st.idx, v2)] = [] := by
      simp
      omega
    rw [this, List.append_nil]
  have hfilter_new :
      st'.bvTriplets.filter (fun t => t.2.1 = st.idx) =
        [(r1, st.idx, v1), (r2, st.idx, v2)] := by
    rw [hbv, List.filter_append]
    have h1 : List.filter (fun t : Trip => t.2.1 = st.idx) st.bvTriplets = [] := by
      rw [List.filter_eq_nil_iff]
      intro t ht
      have := hbelow t ht
      simp
      omega
    have h2 : List.filter (fun t : Trip => t.2.1 = st.idx)
        [(r1, st.idx, v1), (r2, st.idx, v2)] = [(r1, st.idx, v1), (r2, st.idx, v2)] := by simp
    rw [h1, h2, List.nil_append]
  refine ⟨hnodup, ?_, ?_⟩
  · intro c hc
    rw [hidx] at hc
    rcases Nat.lt_succ_iff_lt_or_eq.mp hc with hc' | rfl
    · exact colOk_mono st st' c hlen hpres (hfilter_old c hc') (hcols c hc')
    · exact Or.inr ⟨r1, r2, v1, v2, hfilter_new, hr1, hr2, hne, hrefl, hn1, hn2, hv1, hv2⟩
  · intro t ht
    rw [hbv] at ht
    rw [hidx]
    rcases List.mem_append.mp ht with ht' | ht'
    · have := hbelow t ht'
      omega
    · rcases List.mem_cons.mp ht' with ht'' | ht''
      · subst ht''
        show st.idx < st.idx + 1
        omega
      · simp only [List.mem_singleton] at ht''
        subst ht''
        show st.idx < st.idx + 1
        omega

/-- The squared magnitude of the phased reflection coefficient
`(1/√2)·(−1)^k·i·(±1)` is `1/2`, and it is nonzero. -/
theorem symCoeff_normSq (k : Int) (P : Prop) [Decidable P] :
    KC.normSq (KC.sqrt2inv * KC.phasePow k * KC.imagUnit *
      (if P then 1 else -1)) = Q4.ofRat (1 / 2) ∧
    KC.sqrt2inv * KC.phasePow k * KC.imagUnit * (if P then 1 else -1) ≠ 0 := by
  unfold KC.phasePow
  by_cases hk : k % 2 = 0
  · rw [if_pos hk]
    by_cases hp : P
    · rw [if_pos hp]
      exact ⟨by decide, by decide⟩
    · rw [if_neg hp]
      exact ⟨by decide, by decide⟩
  · rw [if_neg hk]
    by_cases hp : P
    · rw [if_pos hp]
      exact ⟨by decide, by decide⟩
    · rw [if_neg hp]
      exact ⟨by decide, by decide⟩

/-- `addSymmetrizedBasisvectors` with its branches spelled out. -/
theorem addSymmetrizedBasisvectors_eq (state : StateOne) (energy : ℚ) (symLocal : Parity)
    (st : BuildSt) :
    addSymmetrizedBasisvectors state energy symLocal st =
      if symLocal ≠ Parity.NA ∧ state.m2 ≠ 0 ∧ state.m2 < 0 then st
      else
        let st1 : BuildSt :=
          { st with hTriplets := st.hTriplets ++ [(st.idx, st.idx, energy)] }
        if symLocal ≠ Parity.NA ∧ state.m2 ≠ 0 then
          let st2 := addBasisvectors state st.idx KC.sqrt2inv st1
          let st3 := addBasisvectors state.getReflected st2.idx
            (KC.sqrt2inv * KC.phasePow state.phaseExp * KC.imagUnit *
              (if symLocal = Parity.EVEN then 1 else -1)) st2
          { st3 with idx := st3.idx + 1 }
        else
          let st2 := addBasisvectors state st.idx 1 st1
          { st2 with idx := st2.idx + 1 } := by
  unfold addSymmetrizedBasisvectors
  by_cases h1 : symLocal ≠ Parity.NA ∧ state.m2 ≠ 0 ∧ state.m2 < 0
  · rw [if_pos h1, if_pos h1]
  · rw [if_neg h1, if_neg h1]
    by_cases h2 : symLocal ≠ Parity.NA ∧ state.m2 ≠ 0
    · simp only [eq_true h2, if_true]
    · simp only [eq_false h2, if_false]

/-- One `addSymmetrizedBasisvectors` step preserves the build invariant:
the new column is either a fresh single entry of value `1` or two phased
`1/√2`-magnitude entries at the reflection-partner rows. -/
theorem buildInv_addSymmetrized (state : StateOne) (energy : ℚ) (symLocal : Parity)
    (st : BuildSt) (h : BuildInv st) :
    BuildInv (addSymmetrizedBasisvectors state energy symLocal st) := by
  rw [addSymmetrizedBasisvectors_eq]
  by_cases h1 : symLocal ≠ Parity.NA ∧ state.m2 ≠ 0 ∧ state.m2 < 0
  · rw [if_pos h1]
    exact h
  · rw [if_neg h1]
    dsimp only
    by_cases h2 : symLocal ≠ Parity.NA ∧ state.m2 ≠ 0
    · simp only [eq_true h2, if_true]
      obtain ⟨r1, hget1, hbv1, -, hnd1, hpres1, hidx1, -, hr1, hlen1⟩ :=
        addBasisvectors_spec state st.idx KC.sqrt2inv
          { st with hTriplets := st.hTriplets ++ [(st.idx, st.idx, energy)] }
      obtain ⟨r2, hget2, hbv2, -, hnd2, hpres2, hidx2, -, hr2, hlen2⟩ :=
        addBasisvectors_spec state.getReflected
          (addBasisvectors state st.idx KC.sqrt2inv
            { st with hTriplets := st.hTriplets ++ [(st.idx, st.idx, energy)] }).idx
          (KC.sqrt2inv * KC.phasePow state.phaseExp * KC.imagUnit *
            (if symLocal = Parity.EVEN then 1 else -1))
          (addBasisvectors state st.idx KC.sqrt2inv
            { st with hTriplets := st.hTriplets ++ [(st.idx, st.idx, energy)] })
      refine buildInv_extend2
        { st with hTriplets := st.hTriplets ++ [(st.idx, st.idx, energy)] } _
        r1 r2 KC.sqrt2inv
        (KC.sqrt2inv * KC.phasePow state.phaseExp * KC.imagUnit *
          (if symLocal = Parity.EVEN then 1 else -1))
        h (hnd2 (hnd1 h.1))
        (le_trans hlen1 hlen2)
        (fun i hi => (hpres2 i (lt_of_lt_of_le hi hlen1)).trans (hpres1 i hi))
        ?_ ?_ (lt_of_lt_of_le hr1 hlen2) hr2 ?_ ?_
        (by decide) (symCoeff_normSq state.phaseExp (symLocal = Parity.EVEN)).1
        (by decide) (symCoeff_normSq state.phaseExp (symLocal = Parity.EVEN)).2
      · dsimp only
        rw [hbv2, hbv1, hidx1, List.append_assoc]
        rfl
      · dsimp only
        rw [hidx2, hidx1]
      · intro heq
        have hx := (hpres2 r1 hr1).trans hget1
        rw [heq] at hx
        rw [hx] at hget2
        have hm := congrArg StateOne.m2 (Option.some.inj hget2)
        simp only [StateOne.getReflected] at hm
        have hm0 : state.m2 ≠ 0 := h2.2
        omega
      · dsimp only
        rw [hget2, hpres2 r1 hr1, hget1]
        rfl
    · simp only [eq_false h2, if_false]
      obtain ⟨r1, hget1, hbv1, -, hnd1, hpres1, hidx1, -, hr1, hlen1⟩ :=
        addBasisvectors_spec state st.idx 1
          { st with hTriplets := st.hTriplets ++ [(st.idx, st.idx, energy)] }
      refine buildInv_extend1
        { st with hTriplets := st.hTriplets ++ [(st.idx, st.idx, energy)] } _
        r1 1 h (hnd1 h.1) hlen1 hpres1 ?_ ?_ hr1 (by decide)
      · dsimp only
        exact hbv1
      · dsimp only
        rw [hidx1]

/-- A property of the build state preserved by every successful iteration
is preserved by a successful `foldlM` over `Except`. -/
theorem inv_foldlM {α : Type} (P : BuildSt → Prop)
    (f : BuildSt → α → Except String BuildSt)
    (hf : ∀ st a st', P st → f st a = .ok st' → P st')
    (l : List α) :
    ∀ st, P st → ∀ res, l.foldlM f st = .ok res → P res := by
  induction l with
  | nil =>
    intro st hst res h
    rw [List.foldlM_nil, exceptPure_eq] at h
    obtain rfl := Except.ok.inj h
    exact hst
  | cons a t ih =>
    intro st hst res h
    rw [List.foldlM_cons] at h
    cases hfa : f st a with
    | error e =>
      rw [hfa, exceptBind_error] at h
      simp at h
    | ok st1 =>
      rw [hfa, exceptBind_ok] at h
      exact ih st1 (hf st a st1 hst hfa) res h

/-- The `m` loop body preserves the build invariant. -/
theorem mStep_inv (p : BasisParams) (n l j2 : Int) (energy : ℚ) (allowed : List Int)
    (st : BuildSt) (m2 : Int) (st' : BuildSt) (h : BuildInv st)
    (hm : mStep p n l j2 energy allowed st m2 = .ok st') : BuildInv st' := by
  unfold mStep at hm
  split at hm
  · obtain rfl := Except.ok.inj hm
    exact h
  · dsimp only at hm
    split at hm
    · simp at hm
    · obtain rfl := Except.ok.inj hm
      exact buildInv_addSymmetrized _ _ _ _ h

/-- The `j` loop body preserves the build invariant. -/
theorem jStep_inv (cache : ExtCache) (p : BasisParams) (s2 n l : Int)
    (st : BuildSt) (j2 : Int) (st' : BuildSt) (h : BuildInv st)
    (hj : jStep cache p s2 n l st j2 = .ok st') : BuildInv st' := by
  unfold jStep at hj
  split at hj
  · obtain rfl := Except.ok.inj hj
    exact h
  · dsimp only at hj
    split at hj
    · obtain rfl := Except.ok.inj hj
      exact h
    · exact inv_foldlM BuildInv _ (fun s a s1 hs ha => mStep_inv _ _ _ _ _ _ s a s1 hs ha)
        _ st h st' hj

/-- The `l` loop body preserves the build invariant. -/
theorem lStep_inv (cache : ExtCache) (p : BasisParams) (s2 n : Int)
    (st : BuildSt) (l : Int) (st' : BuildSt) (h : BuildInv st)
    (hl : lStep cache p s2 n st l = .ok st') : BuildInv st' := by
  unfold lStep at hl
  split at hl
  · obtain rfl := Except.ok.inj hl
    exact h
  · exact inv_foldlM BuildInv _ (fun s a s1 hs ha => jStep_inv _ _ _ _ _ s a s1 hs ha)
      _ st h st' hl

/-- The `n` loop body preserves the build invariant. -/
theorem nStep_inv (cache : ExtCache) (p : BasisParams) (s2 : Int)
    (st : BuildSt) (n : Int) (st' : BuildSt) (h : BuildInv st)
    (hn : nStep cache p s2 st n = .ok st') : BuildInv st' := by
  unfold nStep at hn
  exact inv_foldlM BuildInv _ (fun s a s1 hs ha => lStep_inv _ _ _ _ s a s1 hs ha)
    _ st h st' hn

/-- The user-defined-state loop body preserves the build invariant. -/
theorem userStep_inv (cache : ExtCache) (p : BasisParams)
    (st : BuildSt) (state : StateOne) (st' : BuildSt) (h : BuildInv st)
    (hu : userStep cache p st state = .ok st') : BuildInv st' := by
  unfold userStep at hu
  dsimp only at hu
  split at hu <;> try split at hu
  all_goals try split at hu
  all_goals try simp at hu
  all_goals try subst hu
  all_goals first
    | exact h
    | exact buildInv_addSymmetrized _ _ _ _ h

/-- Every basis state produced by a successful `initializeBasis` satisfies
the build invariant. -/
theorem initializeBasis_inv (cache : ExtCache) (p : BasisParams) (res : BuildSt)
    (h : initializeBasis cache p = .ok res) : BuildInv res := by
  unfold initializeBasis at h
  split at h
  · simp at h
  · dsimp only at h
    split at h
    · simp at h
    · cases hn : p.range_n.foldlM (nStep cache p (speciesS2 p.species)) ⟨[], 0, [], []⟩ with
      | error e =>
        rw [hn] at h
        simp at h
      | ok st =>
        rw [hn] at h
        dsimp only at h
        have hst : BuildInv st := by
          refine inv_foldlM BuildInv _
            (fun s a s1 hs ha => nStep_inv _ _ _ s a s1 hs ha) _ ⟨[], 0, [], []⟩ ?_ st hn
          exact ⟨List.nodup_nil, fun c hc => absurd hc (Nat.not_lt_zero c),
            fun t ht => absurd ht (List.not_mem_nil t)⟩
        cases hp : userPrecheck p st with
        | error e =>
          rw [hp] at h
          simp at h
        | ok u =>
          rw [hp] at h
          dsimp only at h
          exact inv_foldlM BuildInv _
            (fun s a s1 hs ha => userStep_inv _ _ s a s1 hs ha) _ st hst res h

/-- Filtering triplets by row and column factors through filtering by the
column first. -/
theorem filter_col_row (ts : List Trip) (r c : Nat) :
    ts.filter (fun t => t.1 = r ∧ t.2.1 = c) =
      (ts.filter (fun t => t.2.1 = c)).filter (fun t => t.1 = r) := by
  induction ts with
  | nil => rfl
  | cons t ts ih =>
    by_cases hc : t.2.1 = c
    · by_cases hr : t.1 = r
      · simp [List.filter_cons, hc, hr, ih]
      · simp [List.filter_cons, hc, hr, ih]
    · simp [List.filter_cons, hc, ih]

/-- A well-formed column of the build state, read through the assembled
basis-change matrix: exactly one nonzero row, or exactly two nonzero rows
at reflection-partner states with squared magnitude `1/2` each. -/
theorem colOk_entries (st : BuildSt) (c : Nat) (h : ColOk st c) :
    (∃ r1, r1 < st.states.length ∧ basisvectorsOf st r1 c ≠ 0 ∧
      ∀ r, basisvectorsOf st r c ≠ 0 → r = r1) ∨
    (∃ r1 r2, r1 < st.states.length ∧ r2 < st.states.length ∧ r1 ≠ r2 ∧
      st.states[r2]? = (st.states[r1]?).map StateOne.getReflected ∧
      KC.normSq (basisvectorsOf st r1 c) = Q4.ofRat (1 / 2) ∧
      KC.normSq (basisvectorsOf st r2 c) = Q4.ofRat (1 / 2) ∧
      basisvectorsOf st r1 c ≠ 0 ∧ basisvectorsOf st r2 c ≠ 0 ∧
      ∀ r, basisvectorsOf st r c ≠ 0 → r = r1 ∨ r = r2) := by
  rcases h with ⟨r1, v, hf, hr, hv⟩ | ⟨r1, r2, v1, v2, hf, hr1, hr2, hne, hrefl, hn1, hn2, hv1, hv2⟩
  · have key : ∀ r', basisvectorsOf st r' c = if r' = r1 then v else 0 := by
      intro r'
      show sumKC _ = _
      rw [filter_col_row, hf]
      by_cases h' : r' = r1
      · subst h'
        rw [if_pos rfl]
        simp [List.filter_cons, sumKC, KC.add_zero3]
      · rw [if_neg h']
        simp [List.filter_cons, sumKC, show ¬ (r1 = r') from fun hx => h' hx.symm]
    refine Or.inl ⟨r1, hr, ?_, ?_⟩
    · rw [key r1, if_pos rfl]
      exact hv
    · intro r hne
      by_contra hrr
      rw [key r, if_neg hrr] at hne
      exact hne rfl
  · have key : ∀ r', basisvectorsOf st r' c =
        if r' = r1 then v1 else if r' = r2 then v2 else 0 := by
      intro r'
      show sumKC _ = _
      rw [filter_col_row, hf]
      by_cases h1 : r' = r1
      · subst h1
        rw [if_pos rfl]
        simp [List.filter_cons, sumKC, KC.add_zero3,
          show ¬ (r2 = r') from fun hx => hne hx.symm]
      · rw [if_neg h1]
        by_cases h2 : r' = r2
        · subst h2
          rw [if_pos rfl]
          simp [List.filter_cons, sumKC, KC.add_zero3,
            show ¬ (r1 = r') from fun hx => h1 hx.symm]
        · rw [if_neg h2]
          simp [List.filter_cons, sumKC,
            show ¬ (r1 = r') from fun hx => h1 hx.symm,
            show ¬ (r2 = r') from fun hx => h2 hx.symm]
    refine Or.inr ⟨r1, r2, hr1, hr2, hne, hrefl, ?_, ?_, ?_, ?_, ?_⟩
    · rw [key r1, if_pos rfl]
      exact hn1
    · rw [key r2, if_neg (fun hx => hne hx.symm), if_pos rfl]
      exact hn2
    · rw [key r1, if_pos rfl]
      exact hv1
    · rw [key r2, if_neg (fun hx => hne hx.symm), if_pos rfl]
      exact hv2
    · intro r hne'
      by_cases ha : r = r1
      · exact Or.inl ha
      · by_cases hb : r = r2
        · exact Or.inr hb
        · rw [key r, if_neg ha, if_neg hb] at hne'
          exact absurd rfl hne'

/-- Parameters for a small symmetrized build: species of spin `1/2`, a
single `(n, l, j)` shell, the full adapted `m` range, even reflection
symmetry and no rotation restriction. -/
def pC2 : BasisParams where
  species := "X"
  range_n := [1]
  range_l := [0]
  range_j2 := [1]
  range_m2 := []
  energy_min := none
  energy_max := none
  states_to_add := []
  sym_reflection := Parity.EVEN
  sym_rotation := [ARBm2]

/-- The build state produced by `initializeBasis cacheTriv pC2`: the
`m = -1/2` branch is skipped and the `m = 1/2` state is combined with its
generated reflection partner into one symmetrized column. -/
def resC2 : BuildSt where
  states := [⟨"X", 1, 0, 1, 1, false⟩, ⟨"X", 1, 0, 1, -1, false⟩]
  idx := 1
  bvTriplets := [(0, 0, KC.sqrt2inv), (1, 0, KC.sqrt2inv * KC.imagUnit)]
  hTriplets := [(0, 0, 0)]

/-- C2: a successful `initializeBasis` registers no two equal states, and
every column of the basis-change matrix has exactly one nonzero row, or
exactly two nonzero rows whose row states are exact reflection partners
(`m` and `-m`) with coefficients of squared magnitude `1/2` (that is,
magnitude `1/√2`) each. -/
theorem initializeBasis_column_structure (cache : ExtCache) (p : BasisParams)
    (res : BuildSt) (h : initializeBasis cache p = .ok res) :
    res.states.Nodup ∧
    ∀ c, c < res.idx →
      (∃ r1, r1 < res.states.length ∧ basisvectorsOf res r1 c ≠ 0 ∧
        ∀ r, basisvectorsOf res r c ≠ 0 → r = r1) ∨
      (∃ r1 r2, r1 < res.states.length ∧ r2 < res.states.length ∧ r1 ≠ r2 ∧
        res.states[r2]? = (res.states[r1]?).map StateOne.getReflected ∧
        KC.normSq (basisvectorsOf res r1 c) = Q4.ofRat (1 / 2) ∧
        KC.normSq (basisvectorsOf res r2 c) = Q4.ofRat (1 / 2) ∧
        basisvectorsOf res r1 c ≠ 0 ∧ basisvectorsOf res r2 c ≠ 0 ∧
        ∀ r, basisvectorsOf res r c ≠ 0 → r = r1 ∨ r = r2) := by
  obtain ⟨hnd, hcols, -⟩ := initializeBasis_inv cache p res h
  exact ⟨hnd, fun c hc => colOk_entries res c (hcols c hc)⟩

/-- C2 witness: the concrete symmetrized build for `pC2` succeeds with
result `resC2`, and the column-structure theorem applies to it. -/
theorem initializeBasis_column_structure_witness :
    initializeBasis cacheTriv pC2 = .ok resC2 ∧
    (resC2.states.Nodup ∧
      ∀ c, c < resC2.idx →
        (∃ r1, r1 < resC2.states.length ∧ basisvectorsOf resC2 r1 c ≠ 0 ∧
          ∀ r, basisvectorsOf resC2 r c ≠ 0 → r = r1) ∨
        (∃ r1 r2, r1 < resC2.states.length ∧ r2 < resC2.states.length ∧ r1 ≠ r2 ∧
          resC2.states[r2]? = (resC2.states[r1]?).map StateOne.getReflected ∧
          KC.normSq (basisvectorsOf resC2 r1 c) = Q4.ofRat (1 / 2) ∧
          KC.normSq (basisvectorsOf resC2 r2 c) = Q4.ofRat (1 / 2) ∧
          basisvectorsOf resC2 r1 c ≠ 0 ∧ basisvectorsOf resC2 r2 c ≠ 0 ∧
          ∀ r, basisvectorsOf resC2 r c ≠ 0 → r = r1 ∨ r = r2)) :=
  ⟨by decide, initializeBasis_column_structure cacheTriv pC2 resC2 (by decide)⟩
